import Mathlib

/-!
# ocamlmerlin frontend: argument encoding, descriptor delegation and status relay

A shallow embedding of `src/frontend/ocamlmerlin.c` and the properties proved about it.

* C strings are the lists of their bytes before the terminating NUL; buffers are lists of bytes
  updated in place with `List.set`; a NULL pointer is `none`.
* The encoder (`append_argument`, `prepare_args`) is pure; `failwith` is the error of `Except`.
* The rest of the program runs in `M`: a state holds the results the system will give to the
  calls still to come and the trace of events so far. A run returns, ends the process image
  (exit, abort, exec), or is cut when the script has no result left.
* `PATH_MAX` comes from a system header and is a parameter (a field of `World`).
-/

namespace Merlin

-- Equality of results is decidable, so that runs can be evaluated.
deriving instance DecidableEq for Except

/-- C string literal as the list of its bytes (terminating NUL implicit). -/
def cstr (s : String) : List Nat := s.toList.map Char.toNat

/-- The macro byte(x,n): ((unsigned)((x) >> (n * 8)) & 0xFF). -/
def byte (x n : Nat) : Nat := ((x >>> (n * 8)) % 2 ^ 32) &&& 0xFF

/-- The table envvars, without its NULL sentinel. -/
def envvars : List (List Nat) :=
  [cstr "OCAMLLIB", cstr "OCAMLFIND_CONF", cstr "MERLIN_LOG"]

/-- The while loop of append_argument: copy bytes of p while not NUL and j < len. -/
def append_loop (len : Nat) : List Nat → List Nat → Nat → List Nat × Nat
  | [], buffer, j => (buffer, j)
  | c :: p, buffer, j =>
    if c ≠ 0 ∧ j < len then append_loop len p (buffer.set j c) (j + 1)
    else (buffer, j)

/-- The function append_argument: copy p at *pos, fail when the buffer is full, else store the
terminating NUL. The new buffer and the new *pos are returned; failwith is an error. -/
def append_argument (buffer : List Nat) (len pos : Nat) (p : List Nat) :
    Except String (List Nat × Nat) :=
  match append_loop len p buffer pos with
  | (buffer, j) =>
    if j ≥ len then .error "maximum number of arguments exceeded"
    else .ok (buffer.set j 0, j + 1)

/-- First loop of prepare_args, over envvars: the name, then "=" and the value over the
terminator when getenv finds the variable. -/
def prepare_env (getenv : List Nat → Option (List Nat)) (len : Nat) :
    List (List Nat) → List Nat × Nat → Except String (List Nat × Nat)
  | [], s => .ok s
  | name :: rest, (buffer, j) => do
    let (buffer, j) ← append_argument buffer len j name
    match getenv name with
    | none => prepare_env getenv len rest (buffer, j)
    | some v => do
      let j := j - 1
      let (buffer, j) ← append_argument buffer len j (cstr "=")
      let j := j - 1
      let (buffer, j) ← append_argument buffer len j v
      prepare_env getenv len rest (buffer, j)

/-- Second loop of prepare_args: for (i = 0; i < argc && j < len; ++i), argc being the length of
the list. -/
def prepare_argv (len : Nat) :
    List (List Nat) → List Nat × Nat → Except String (List Nat × Nat)
  | [], s => .ok s
  | a :: rest, (buffer, j) =>
    if j < len then do
      let s ← append_argument buffer len j a
      prepare_argv len rest s
    else .ok (buffer, j)

/-- The function prepare_args: j starts at 4, the two loops with the empty entry between them,
then the four length bytes. Returns the buffer and j. -/
def prepare_args (getenv : List Nat → Option (List Nat)) (buffer : List Nat) (len : Nat)
    (argv : List (List Nat)) : Except String (List Nat × Nat) := do
  let j := 4
  let (buffer, j) ← prepare_env getenv len envvars (buffer, j)
  let (buffer, j) ← append_argument buffer len j (cstr "")
  let (buffer, j) ← prepare_argv len argv (buffer, j)
  let buffer := buffer.set 0 (byte j 0)
  let buffer := buffer.set 1 (byte j 1)
  let buffer := buffer.set 2 (byte j 2)
  let buffer := buffer.set 3 (byte j 3)
  .ok (buffer, j)

/-- Entries each followed by its NUL terminator. -/
def terminated : List (List Nat) → List Nat
  | [] => []
  | e :: es => e ++ 0 :: terminated es

/-- Wire entry of one variable: "NAME" when it is unset, "NAME=VALUE" when it is set. -/
def envEntry (getenv : List Nat → Option (List Nat)) (name : List Nat) : List Nat :=
  match getenv name with
  | none => name
  | some v => name ++ cstr "=" ++ v

/-- The request after its length: the terminated entries of the variables, one NUL, the
terminated arguments. -/
def wireBody (getenv : List Nat → Option (List Nat)) (argv : List (List Nat)) : List Nat :=
  terminated (envvars.map (envEntry getenv)) ++ 0 :: terminated argv

/-- Size of the full encoding: 4 + sum of (entry length + 1) + 1 + sum of (argument length + 1). -/
def encodedSize (getenv : List Nat → Option (List Nat)) (argv : List (List Nat)) : Nat :=
  4 + ((envvars.map (fun name => (envEntry getenv name).length + 1)).sum + 1
    + (argv.map (fun a => a.length + 1)).sum)

/-- The four bytes of n, least significant first. -/
def le32 (n : Nat) : List Nat := [n % 256, n / 256 % 256, n / 65536 % 256, n / 16777216 % 256]

/-- The request as the specification lays it out: length, then body. -/
def wireLayout (getenv : List Nat → Option (List Nat)) (argv : List (List Nat)) : List Nat :=
  le32 (encodedSize getenv argv) ++ wireBody getenv argv

/-- A string without NUL byte. -/
abbrev NulFree (p : List Nat) : Prop := ∀ c ∈ p, c ≠ 0

/-- Bytes taken by the entries of the given variables with their terminators. -/
def envSize (getenv : List Nat → Option (List Nat)) (names : List (List Nat)) : Nat :=
  (names.map (fun name => (envEntry getenv name).length + 1)).sum

/-- Bytes taken by the arguments with their terminators. -/
def argvSize (argv : List (List Nat)) : Nat := (argv.map (fun a => a.length + 1)).sum

/-- Decoder, first step: read the 4-byte length, least significant byte first. -/
def readLength (buffer : List Nat) : Nat :=
  buffer.getD 0 0 + 256 * buffer.getD 1 0 + 65536 * buffer.getD 2 0 + 16777216 * buffer.getD 3 0

/-- Decoder: split at NUL terminators; acc holds the current entry reversed. -/
def splitNul : List Nat → List Nat → List (List Nat)
  | _, [] => []
  | acc, c :: rest => if c = 0 then acc.reverse :: splitNul [] rest else splitNul (c :: acc) rest

/-- Decoder: split an entry of the environment block at its first '=' (byte 61). -/
def splitAtEq : List Nat → List Nat × Option (List Nat)
  | [] => ([], none)
  | c :: rest =>
    if c = 61 then ([], some rest)
    else match splitAtEq rest with
      | (name, v) => (c :: name, v)

/-- Decoder of the request, written from the wire format: read the length, split the rest at
NUL terminators, take the entries up to the first empty one as the environment block, each
split at its first '=', and the remaining entries as the arguments. -/
def decode_request (buffer : List Nat) :
    List (List Nat × Option (List Nat)) × List (List Nat) :=
  let n := readLength buffer
  let entries := splitNul [] ((buffer.take n).drop 4)
  ((entries.takeWhile (fun e => !e.isEmpty)).map splitAtEq,
   (entries.dropWhile (fun e => !e.isEmpty)).drop 1)

/-- The static request buffer of main: `static unsigned char argbuffer[65536]`, zero-filled. -/
def argbuffer : List Nat := List.replicate 65536 0

/-- An argument of 65495 letters 'a': with no variable set it fills the buffer exactly. -/
def fillingArgument : List Nat := List.replicate 65495 97

/-- What snprintf(dst, size, ...) leaves in dst: at most size - 1 bytes of the text. -/
def snprintf (size : Nat) (text : List Nat) : List Nat := text.take (size - 1)

/-- Digit loop of the C library conversions %llu and %d: most significant digit first. -/
def decimalAux : Nat → Nat → List Nat → List Nat
  | 0, _, acc => acc
  | fuel + 1, n, acc =>
    if n < 10 then (48 + n) :: acc
    else decimalAux fuel (n / 10) ((48 + n % 10) :: acc)

/-- The text printed for an unsigned value by %llu. -/
def decimal (n : Nat) : List Nat := decimalAux (n + 1) n []

/-- The text printed for an int by %d. -/
def decimalInt (x : Int) : List Nat :=
  if x < 0 then 45 :: decimal (-x).toNat else decimal x.toNat

/-- The snprintf call of compute_socketname, PATHSZ being PATH_MAX + 1; the three values are
cast to unsigned long long. -/
def format_socketname (PATH_MAX uid st_dev st_ino : Nat) : List Nat :=
  snprintf (PATH_MAX + 1)
    (cstr "ocamlmerlin_" ++ decimal (uid % 2 ^ 64) ++ cstr "_" ++ decimal (st_dev % 2 ^ 64)
      ++ cstr "_" ++ decimal (st_ino % 2 ^ 64) ++ cstr ".socket")

/-- Reads a decimal text back. -/
def parseDecimal (text : List Nat) : Nat := text.foldl (fun v c => 10 * v + (c - 48)) 0

/-- One store into the static array binary_path of search_in_path. -/
structure Store where
  idx : Nat
  val : Nat
deriving DecidableEq, Repr

/-- First inner loop of search_in_path: copy one directory of PATH while
i < PATHSZ-1 and the byte is neither NUL nor ':'. Returns the rest of PATH, i and the stores. -/
def copy_dir (PATH_MAX : Nat) : List Nat → Nat → List Store → List Nat × Nat × List Store
  | [], i, stores => ([], i, stores)
  | c :: rest, i, stores =>
    if i < PATH_MAX + 1 - 1 ∧ c ≠ 58 then
      copy_dir PATH_MAX rest (i + 1) (stores ++ [⟨i, c⟩])
    else (c :: rest, i, stores)

/-- Second inner loop of search_in_path: append the file name while i < PATHSZ-1. -/
def copy_file (PATH_MAX : Nat) : List Nat → Nat → List Store → Nat × List Store
  | [], i, stores => (i, stores)
  | c :: file, i, stores =>
    if i < PATH_MAX + 1 - 1 then copy_file PATH_MAX file (i + 1) (stores ++ [⟨i, c⟩])
    else (i, stores)

/-- The two seek loops at the end of an iteration: skip to the next ':' and then over
every ':'. -/
def seek_next (PATH : List Nat) : List Nat :=
  (PATH.dropWhile (fun c => c != 58)).dropWhile (fun c => c == 58)

/-- The outer loop of search_in_path. The result is what the function returns together with
every store it made into binary_path, in order. The candidate handed to realpath is the text
stored before the terminating NUL. -/
def search_loop (PATH_MAX : Nat) (realpath : List Nat → Option (List Nat)) (argv0 : List Nat) :
    Nat → List Nat → List Store → Option (List Nat) × List Store
  | 0, _, stores => (none, stores)
  | fuel + 1, PATH, stores =>
    match PATH with
    | [] => (none, stores)
    | _ :: _ =>
      match copy_dir PATH_MAX PATH 0 [] with
      | (PATH, i, dir) =>
        let slash : List Store := dir ++ [⟨i, 47⟩]
        let i := i + 1
        match copy_file PATH_MAX argv0 i slash with
        | (i, name) =>
          let stores := stores ++ name ++ [⟨i, 0⟩]
          match realpath (name.map Store.val) with
          | some result => (some result, stores)
          | none => search_loop PATH_MAX realpath argv0 fuel (seek_next PATH) stores

/-- The function search_in_path; a NULL pointer is none. Every iteration consumes at least one
byte of PATH, so PATH.length + 1 rounds are never exhausted. -/
def search_in_path (PATH_MAX : Nat) (realpath : List Nat → Option (List Nat))
    (PATH : Option (List Nat)) (argv0 : Option (List Nat)) :
    Option (List Nat) × List Store :=
  match PATH, argv0 with
  | some PATH, some argv0 => search_loop PATH_MAX realpath argv0 (PATH.length + 1) PATH []
  | _, _ => (none, [])

/-- A PATH made of one directory of 4096 letters 'a', the value of PATH_MAX on Linux. -/
def longDirectory : List Nat := List.replicate 4096 97

/-- Result of one system call: the returned value, whether errno is EINTR afterwards, and the
bytes the call stored in the caller's buffer (read, getcwd). -/
structure SysRes where
  ret : Int
  eintr : Bool
  data : List Nat
deriving DecidableEq, Repr

/-- The system calls of the program with the arguments it passes. -/
inductive Call
  | socket
  | getcwd
  | chdir (path : List Nat)
  | connect (sock : Int) (sun_path : List Nat)
  | close (fd : Int)
  | unlink (path : List Nat)
  | bind (sock : Int) (sun_path : List Nat)
  | listen (sock : Int) (backlog : Nat)
  | fork
  | wait
  | setsid
  | openNull (path : List Nat)
  | dup2 (oldfd newfd : Int)
  | signalIgnoreHup
  | execlp (file : List Nat) (args : List (List Nat))
  | execvp (file : List Nat) (args : List (List Nat))
  | sendmsg (fd : Int) (payload : List Nat) (fds : List Int)
  | send (fd : Int) (payload : List Nat)
  | read (fd : Int) (count : Nat)
deriving DecidableEq, Repr

/-- One observable step of a run. -/
inductive Event
  | sys (c : Call) (r : SysRes)
  | pending (c : Call)
  | puts (text : String)
  | perror (msg : String)
  | eprintln (msg : String)
  | dumpinfo (merlin_path sockdir socketname : List Nat)
  | exit (status : Int)
  | abort
deriving DecidableEq, Repr

/-- Coarse classes of events. -/
inductive Kind
  | socketOp | cwdOp | spawnOp | execvpOp | sendOp | readOp | stdoutOp | stderrOp
  | failwithOp | exitOp | abortOp
deriving DecidableEq, Repr

/-- The class of a system call. -/
def Call.kind : Call → Kind
  | .socket => .socketOp
  | .connect _ _ => .socketOp
  | .close _ => .socketOp
  | .unlink _ => .socketOp
  | .bind _ _ => .socketOp
  | .listen _ _ => .socketOp
  | .getcwd => .cwdOp
  | .chdir _ => .cwdOp
  | .fork => .spawnOp
  | .wait => .spawnOp
  | .setsid => .spawnOp
  | .openNull _ => .spawnOp
  | .dup2 _ _ => .spawnOp
  | .signalIgnoreHup => .spawnOp
  | .execlp _ _ => .spawnOp
  | .execvp _ _ => .execvpOp
  | .sendmsg _ _ _ => .sendOp
  | .send _ _ => .sendOp
  | .read _ _ => .readOp

/-- The class of an event. -/
def Event.kind : Event → Kind
  | .sys c _ => c.kind
  | .pending c => c.kind
  | .puts _ => .stdoutOp
  | .perror _ => .stderrOp
  | .eprintln _ => .failwithOp
  | .dumpinfo _ _ _ => .stderrOp
  | .exit _ => .exitOp
  | .abort => .abortOp

/-- What does not depend on the run: limits, environment, file system, user, and whether
plain char is signed. realpath_left is what the failing realpath calls of a failed
resolution leave in their output buffer, which POSIX leaves undefined. -/
structure World where
  PATH_MAX : Nat
  getenv : List Nat → Option (List Nat)
  realpath : List Nat → Option (List Nat)
  realpath_left : List Nat
  stat : List Nat → Option (Nat × Nat)
  getuid : Nat
  char_signed : Bool

/-- State of the process: the results the system will give to the calls still to come, the
events so far, and the two static strings printed by dumpinfo. -/
structure Proc where
  script : List SysRes
  trace : List Event
  merlin_path : List Nat
  socketname : List Nat

/-- How a piece of the program ends: it returns, the process image ends (exit, abort, a
successful exec), or the script has no result left for the call just issued. -/
inductive Run (α : Type)
  | ret (a : α) (p : Proc)
  | halt (p : Proc)
  | blocked (p : Proc)

/-- The state in which a piece of program ended. -/
def Run.proc {α : Type} : Run α → Proc
  | .ret _ p => p
  | .halt p => p
  | .blocked p => p

/-- A piece of program: from a state of the process to how it ends. -/
def M (α : Type) : Type := Proc → Run α

/-- Return a value without any event. -/
def M.pure {α : Type} (a : α) : M α := fun p => .ret a p

/-- Sequence: what follows runs only when the first piece returns. -/
def M.bind {α β : Type} (m : M α) (f : α → M β) : M β := fun p =>
  match m p with
  | .ret a p => f a p
  | .halt p => .halt p
  | .blocked p => .blocked p

/-- Gives the do notation to M. -/
instance : Monad M where
  pure := M.pure
  bind := M.bind

/-- Append one event to the trace. -/
def emit (e : Event) : M Unit := fun p => .ret () { p with trace := p.trace ++ [e] }

/-- Issue a system call and take its result from the script. -/
def sys (c : Call) : M SysRes := fun p =>
  match p.script with
  | [] => .blocked { p with trace := p.trace ++ [.pending c] }
  | r :: rs => .ret r { p with script := rs, trace := p.trace ++ [.sys c r] }

/-- The loop of the macro NO_EINTR: repeat the call while it returns -1 with errno EINTR. -/
def NO_EINTR_loop (c : Call) : List SysRes → Proc → Run SysRes
  | [], p => .blocked { p with script := [], trace := p.trace ++ [.pending c] }
  | r :: rs, p =>
    if r.ret = -1 ∧ r.eintr = true then
      NO_EINTR_loop c rs { p with script := rs, trace := p.trace ++ [.sys c r] }
    else .ret r { p with script := rs, trace := p.trace ++ [.sys c r] }

/-- The macro NO_EINTR(var, command) on the scripted results. -/
def NO_EINTR (c : Call) : M SysRes := fun p => NO_EINTR_loop c p.script p

/-- The call exit(status). -/
def exit {α : Type} (status : Int) : M α := fun p =>
  .halt { p with trace := p.trace ++ [.exit status] }

/-- The call abort(). -/
def abort {α : Type} : M α := fun p => .halt { p with trace := p.trace ++ [.abort] }

/-- An exec call: it returns only when it failed, with -1. -/
def exec (c : Call) : M Unit := fun p =>
  match sys c p with
  | .ret r p => if r.ret = -1 then .ret () p else .halt p
  | .halt p => .halt p
  | .blocked p => .blocked p

/-- The function path_socketdir: TMPDIR, or "/tmp". -/
def path_socketdir (w : World) : List Nat :=
  match w.getenv (cstr "TMPDIR") with
  | none => cstr "/tmp"
  | some tmpdir => tmpdir

/-- The function dumpinfo: the two static strings and the socket directory on stderr. -/
def dumpinfo (w : World) : M Unit := fun p =>
  emit (.dumpinfo p.merlin_path (path_socketdir w) p.socketname) p

/-- The function failwith_perror: perror, dumpinfo, exit(EXIT_FAILURE). -/
def failwith_perror {α : Type} (w : World) (msg : String) : M α := do
  emit (.perror msg)
  dumpinfo w
  exit 1

/-- The function failwith: the message on stderr, dumpinfo, exit(EXIT_FAILURE). -/
def failwith {α : Type} (w : World) (msg : String) : M α := do
  emit (.eprintln msg)
  dumpinfo w
  exit 1

/-- Conversion of an ssize_t to size_t. -/
def size_t_of (x : Int) : Nat := (x % 2 ^ 64).toNat

/-- The bytes buffer[off], ..., buffer[off + n - 1]. -/
def iov (buffer : List Nat) (off n : Nat) : List Nat := (buffer.drop off).take n

/-- The while loop of ipc_send. Every round takes at least one result from the script, so
the rounds given by ipc_send are never exhausted. -/
def ipc_send_loop (w : World) (fd : Int) (buffer : List Nat) (len : Nat) : Nat → Int → M Unit
  | 0, _ => fun p => .blocked p
  | fuel + 1, sent =>
    if size_t_of sent < len then do
      let sent_ ← NO_EINTR (.send fd (iov buffer sent.toNat (size_t_of (len - sent))))
      if sent_.ret = -1 then
        failwith_perror w "sent"
      ipc_send_loop w fd buffer len fuel (sent + sent_.ret)
    else pure ()

/-- The function ipc_send: sendmsg of the whole payload with the three descriptors as
ancillary data, then the send loop. -/
def ipc_send (w : World) (fd : Int) (buffer : List Nat) (len : Nat) (fds : List Int) :
    M Unit := do
  let sent ← NO_EINTR (.sendmsg fd (iov buffer 0 len) fds)
  if sent.ret = -1 then
    failwith_perror w "sendmsg"
  fun p => ipc_send_loop w fd buffer len (p.script.length + 1) sent.ret p

/-- The function connect_socket; BEGIN_PROTECTCWD and END_PROTECTCWD are the getcwd and the
chdir back. -/
def connect_socket (w : World) (socketname : List Nat) (fail : Bool) : M Int := do
  let sock ← sys .socket
  if sock.ret = -1 then
    failwith_perror w "socket"
  let cwd ← sys .getcwd
  let previous_cwd := if cwd.ret = 0 then [] else cwd.data
  let _ ← sys (.chdir (path_socketdir w))
  let sun_path := snprintf 104 (cstr "./" ++ socketname)
  let err ← NO_EINTR (.connect sock.ret sun_path)
  if previous_cwd ≠ [] then
    let _ ← sys (.chdir previous_cwd)
  if err.ret = -1 then
    if fail then
      failwith_perror w "connect"
    let _ ← sys (.close sock.ret)
    return -1
  return sock.ret

/-- The function make_daemon. -/
def make_daemon (w : World) (_sock : Int) : M Unit := do
  let sid ← sys .setsid
  if sid.ret < 0 then
    failwith_perror w "setsid"
  let _ ← sys (.close 0)
  let fd ← sys (.openNull (cstr "/dev/null"))
  if fd.ret ≠ 0 then
    failwith_perror w "open"
  let _ ← sys (.dup2 0 1)
  let _ ← sys (.dup2 0 2)
  let dir ← sys (.chdir (cstr "/"))
  if dir.ret ≠ 0 then
    failwith_perror w "chdir"
  let child ← sys .fork
  let _ ← sys .signalIgnoreHup
  if child.ret < 0 then
    failwith_perror w "fork"
  if child.ret > 0 then
    exit 0

/-- The function start_server; a fork result of 0 follows the child. -/
def start_server (w : World) (socketname exec_path : List Nat) : M Unit := do
  let sock ← sys .socket
  if sock.ret = -1 then
    failwith_perror w "socket"
  let cwd ← sys .getcwd
  let previous_cwd := if cwd.ret = 0 then [] else cwd.data
  let _ ← sys (.chdir (path_socketdir w))
  let sun_path := snprintf 104 (cstr "./" ++ socketname)
  let _ ← sys (.unlink sun_path)
  let err ← NO_EINTR (.bind sock.ret sun_path)
  if previous_cwd ≠ [] then
    let _ ← sys (.chdir previous_cwd)
  if err.ret = -1 then
    failwith_perror w "bind"
  let l ← sys (.listen sock.ret 5)
  if l.ret = -1 then
    failwith_perror w "listen"
  let child ← sys .fork
  if child.ret = -1 then
    failwith_perror w "fork"
  if child.ret = 0 then
    make_daemon w sock.ret
    let socket_fd := decimalInt sock.ret
    let socket_path := snprintf (w.PATH_MAX + 1) (path_socketdir w ++ cstr "/" ++ socketname)
    exec (.execlp exec_path [exec_path, cstr "server", socket_path, socket_fd])
    failwith_perror w "execlp"
  let _ ← sys (.close sock.ret)
  let _ ← sys .wait

/-- The function connect_and_serve. -/
def connect_and_serve (w : World) (socket_path exec_path : List Nat) : M Int := do
  let sock ← connect_socket w socket_path false
  let sock ←
    if sock = -1 then do
      start_server w socket_path exec_path
      connect_socket w socket_path true
    else pure sock
  if sock = -1 then
    abort
  return sock

/-- The loop of compute_merlinpath that finds the length of the directory part. -/
def dirlen (path : List Nat) : Nat → Nat
  | 0 => 0
  | strsz + 1 => if path.getD strsz 0 ≠ 47 then dirlen path strsz else strsz + 1

/-- The function compute_merlinpath; argv0 is none for a NULL argv[0]. Every realpath call
has merlin_path as its output buffer: when the resolution fails, merlin_path holds what the
failing calls left there. -/
def compute_merlinpath (w : World) (argv0 : Option (List Nat)) : M Unit := fun p =>
  let resolved :=
    match argv0.bind w.realpath with
    | some path => some path
    | none => (search_in_path w.PATH_MAX w.realpath (w.getenv (cstr "PATH")) argv0).1
  match resolved with
  | none =>
    failwith w "cannot resolve path to ocamlmerlin" { p with merlin_path := w.realpath_left }
  | some path =>
    let strsz := dirlen path path.length
    let p := { p with merlin_path := path.take strsz }
    if strsz + 19 > w.PATH_MAX + 1 then failwith w "path is too long" p
    else .ret () { p with merlin_path := path.take strsz ++ cstr "ocamlmerlin-server" }

/-- The function compute_socketname: stat of the worker binary, then the formatted name. -/
def compute_socketname (w : World) : M Unit := fun p =>
  match w.stat p.merlin_path with
  | none => failwith_perror w "stat (cannot find ocamlmerlin binary)" p
  | some (st_dev, st_ino) =>
    .ret () { p with socketname := format_socketname w.PATH_MAX w.getuid st_dev st_ino }

/-- The for loop of abnormal_termination: i from 1 while i < argc - 1. -/
def protocol_sexp (argv : List (List Nat)) : Bool :=
  (List.range' 1 (argv.length - 1 - 1)).foldl
    (fun sexp i =>
      if argv.getD i [] = cstr "-protocol" ∧ argv.getD (i + 1) [] = cstr "sexp" then true
      else sexp)
    false

/-- The function abnormal_termination: puts of the selected record, then failwith. -/
def abnormal_termination {α : Type} (w : World) (argv : List (List Nat)) : M α := do
  emit (.puts (if protocol_sexp argv
    then "((assoc) (class . \"failure\") (value . \"abnormal termination\") (notifications))"
    else "\x7b\"class\": \"failure\", \"value\": \"abnormal termination\", \"notifications\": [] \x7d"))
  failwith w "abnormal termination"

/-- The value of a char holding byte b once converted to int. -/
def char_to_int (char_signed : Bool) (b : Nat) : Int :=
  if char_signed ∧ b % 256 ≥ 128 then (b % 256 : Int) - 256 else (b % 256 : Int)

/-- The exit code the parent observes for exit(status): status & 0377. -/
def exit_code (status : Int) : Nat := (status % 256).toNat

/-- The test of main: argc >= 2 && strcmp(argv[1], "server") == 0. -/
def server_marker (argv : List (List Nat)) : Bool :=
  decide (argv.length ≥ 2) && decide (argv.getD 1 [] = cstr "server")

/-- The function main, argc being the length of argv; argbuffer is the static buffer of
65536 bytes and the descriptors are STDIN_FILENO, STDOUT_FILENO, STDERR_FILENO. -/
def main (w : World) (argv : List (List Nat)) : M Unit := do
  compute_merlinpath w argv.head?
  if server_marker argv then
    compute_socketname w
    let sock ← fun p => connect_and_serve w p.socketname p.merlin_path p
    match prepare_args w.getenv argbuffer 65536 (argv.drop 2) with
    | .error msg => failwith w msg
    | .ok (buffer, len) =>
      ipc_send w sock buffer len [0, 1, 2]
      let err ← NO_EINTR (.read sock 1)
      if err.ret = 1 then
        exit (char_to_int w.char_signed (err.data.headD 0))
      abnormal_termination w argv
  else
    let merlin_path ← fun p => M.pure p.merlin_path p
    exec (.execvp merlin_path (argv.set 0 (cstr "ocamlmerlin-server")))
    failwith_perror w "execvp(ocamlmerlin-server)"

/-- The events a piece of program adds to the trace from state p. -/
def newEvents {α : Type} (m : M α) (p : Proc) : List Event := (m p).proc.trace.drop p.trace.length

/-- The process as the system starts it. -/
def start (script : List SysRes) : Proc :=
  { script := script, trace := [], merlin_path := cstr "<not computed yet>",
    socketname := cstr "<not computed yet>" }

/-- From every state the piece of program only appends events, all of the kinds K. -/
structure Emits {α : Type} (K : List Kind) (m : M α) : Prop where
  out : ∀ p, ∃ new, (m p).proc.trace = p.trace ++ new ∧ ∀ e ∈ new, e.kind ∈ K

/-- The number of payload bytes a transmission call is given. -/
def Call.offered : Call → Nat
  | .sendmsg _ payload _ => payload.length
  | .send _ payload => payload.length
  | _ => 0

/-- The transmissions after the first: send calls without ancillary data, each starting at the
number of bytes reported so far. -/
def sendsFrom (fd : Int) (buffer : List Nat) (len : Nat) : Nat → List SysRes → List Event
  | _, [] => []
  | off, r :: rs =>
    .sys (.send fd (iov buffer off (len - off))) r
      :: sendsFrom fd buffer len (off + r.ret.toNat) rs

/-- A Linux system where user 1000 has ocamlmerlin installed in /usr/bin and no variable is set. -/
def sampleWorld : World :=
  { PATH_MAX := 4096
    getenv := fun _ => none
    realpath := fun path => if path = cstr "/usr/bin/ocamlmerlin" then some path else none
    realpath_left := []
    stat := fun _ => some (2049, 131)
    getuid := 1000
    char_signed := true }

/-- A successful result. -/
def okRes (n : Int) : SysRes := { ret := n, eintr := false, data := [] }

/-- In the events es of a run started in state p, a system call that failed with -1 and an
errno other than EINTR is the last one: only the failure report follows it. -/
def FatalStops (w : World) (p : Proc) (es : List Event) : Prop :=
  ∀ pre c r post, es = pre ++ Event.sys c r :: post → r.ret = -1 → r.eintr = false →
    ∃ msg, post = [.perror msg, .dumpinfo p.merlin_path (path_socketdir w) p.socketname, .exit 1]

/-- The start of the client branch of main, up to the return of connect_and_serve. -/
def client_connect (w : World) (argv : List (List Nat)) : M Int := do
  compute_merlinpath w argv.head?
  compute_socketname w
  fun p => connect_and_serve w p.socketname p.merlin_path p

/-- The client branch of main up to the return of ipc_send. -/
def client_request (w : World) (argv : List (List Nat)) : M Int := do
  let sock ← client_connect w argv
  match prepare_args w.getenv argbuffer 65536 (argv.drop 2) with
  | .error msg => failwith w msg
  | .ok (buffer, len) =>
    ipc_send w sock buffer len [0, 1, 2]
    return sock

/-- The end of the client branch of main: read the status byte and relay it. -/
def client_relay (w : World) (argv : List (List Nat)) (sock : Int) : M Unit := do
  let err ← NO_EINTR (.read sock 1)
  if err.ret = 1 then
    exit (char_to_int w.char_signed (err.data.headD 0))
  abnormal_termination w argv

/-- A socket was created and a connect on it succeeded. -/
def Connected (t : List Event) (sock : Int) : Prop :=
  ∃ r1 r2 path, Event.sys .socket r1 ∈ t ∧ r1.ret = sock ∧ sock ≠ -1
    ∧ Event.sys (.connect sock path) r2 ∈ t ∧ r2.ret ≠ -1

/-- The first event a piece of program adds satisfies P. -/
structure StartsWith {α : Type} (P : Event → Prop) (m : M α) : Prop where
  out : ∀ p, ∃ e rest, (m p).proc.trace = p.trace ++ e :: rest ∧ P e

/-- The run of a client given the marker and one forwarded argument. -/
def clientArgv : List (List Nat) :=
  [cstr "/usr/bin/ocamlmerlin", cstr "server", cstr "--version"]

/-- A successful getcwd. -/
def cwdRes : SysRes := { ret := 1, eintr := false, data := cstr "/home" }

/-- Results of a run in which the worker already listens, takes the 50 bytes of the request
in one transmission and answers with the status byte 200. -/
def relayScript : List SysRes :=
  [okRes 3, cwdRes, okRes 0, okRes 0, okRes 0, okRes 50, { ret := 1, eintr := false, data := [200] }]

/-- An argument of 65496 letters 'a': one byte too long for the buffer. -/
def oversizedArgument : List Nat := List.replicate 65496 97

/-- A client invocation whose single forwarded argument does not fit the buffer. -/
def oversizedArgv : List (List Nat) :=
  [cstr "/usr/bin/ocamlmerlin", cstr "server", oversizedArgument]

/-- Results of a run in which the worker already listens and the connect succeeds. -/
def connectScript : List SysRes := [okRes 3, cwdRes, okRes 0, okRes 0, okRes 0]

/-- An invocation without the marker. -/
def plainArgv : List (List Nat) := [cstr "/usr/bin/ocamlmerlin", cstr "--version"]

/-- State of the sample client run once the worker path is resolved. -/
def resolvedClient : Proc :=
  { start relayScript with merlin_path := cstr "/usr/bin/ocamlmerlin-server" }

/-- State of the sample client run once the socket name is computed. -/
def namedClient : Proc :=
  { resolvedClient with socketname := cstr "ocamlmerlin_1000_2049_131.socket" }

theorem take_set_succ (c : Nat) : ∀ (b : List Nat) (j : Nat), j < b.length →
    (b.set j c).take (j + 1) = b.take j ++ [c] := by
  intro b
  induction b with
  | nil => intro j h; simp at h
  | cons x xs ih =>
    intro j h
    cases j with
    | zero => simp
    | succ k =>
      have hk : k < xs.length := by simpa using h
      simp [ih k hk]

theorem take_pred_of_snoc (b x : List Nat) (n c : Nat) (hn : n + 1 ≤ b.length)
    (h : b.take (n + 1) = x ++ [c]) : b.take n = x := by
  have hlen : x.length = n := by
    have := congrArg List.length h
    simp at this
    omega
  have h2 : b.take n = (b.take (n + 1)).take n := by
    rw [List.take_take]; simp
  rw [h2, h]
  exact List.take_left' hlen

theorem append_loop_spec (len : Nat) : ∀ (p buffer : List Nat) (j : Nat),
    NulFree p → j + p.length ≤ len → j + p.length ≤ buffer.length →
    (append_loop len p buffer j).2 = j + p.length
    ∧ (append_loop len p buffer j).1.length = buffer.length
    ∧ (append_loop len p buffer j).1.take (j + p.length) = buffer.take j ++ p := by
  intro p
  induction p with
  | nil => intro buffer j _ _ _; simp [append_loop]
  | cons c p ih =>
    intro buffer j hnul hfit hb
    have hc : c ≠ 0 := hnul c (by simp)
    have hp : NulFree p := fun d hd => hnul d (by simp [hd])
    simp only [List.length_cons] at hfit hb
    have hj : j < len := by omega
    have hjb : j < buffer.length := by omega
    obtain ⟨h1, h2, h3⟩ := ih (buffer.set j c) (j + 1) hp (by omega) (by simp; omega)
    have e : j + (p.length + 1) = j + 1 + p.length := by omega
    simp only [append_loop, hc, hj, ne_eq, not_false_eq_true, and_self, if_true, List.length_cons]
    refine ⟨by omega, by simpa using h2, ?_⟩
    rw [e, h3, take_set_succ c buffer j hjb]
    simp

theorem append_loop_snd (len : Nat) : ∀ (p buffer : List Nat) (j : Nat),
    NulFree p → j ≤ len → (append_loop len p buffer j).2 = min (j + p.length) len := by
  intro p
  induction p with
  | nil => intro buffer j _ h; simp [append_loop]; omega
  | cons c p ih =>
    intro buffer j hnul hj
    have hc : c ≠ 0 := hnul c (by simp)
    have hp : NulFree p := fun d hd => hnul d (by simp [hd])
    by_cases hlt : j < len
    · simp only [append_loop, hc, hlt, ne_eq, not_false_eq_true, and_self, if_true, List.length_cons]
      rw [ih (buffer.set j c) (j + 1) hp (by omega)]
      omega
    · simp only [append_loop, hlt, and_false, if_false, List.length_cons]
      omega

theorem append_argument_spec (buffer : List Nat) (len j : Nat) (p : List Nat)
    (hnul : NulFree p) (hfit : j + p.length + 1 ≤ len) (hb : len ≤ buffer.length) :
    ∃ b, append_argument buffer len j p = .ok (b, j + p.length + 1)
      ∧ b.length = buffer.length
      ∧ b.take (j + p.length + 1) = buffer.take j ++ p ++ [0] := by
  obtain ⟨h1, h2, h3⟩ := append_loop_spec len p buffer j hnul (by omega) (by omega)
  unfold append_argument
  generalize hr : append_loop len p buffer j = r at h1 h2 h3
  obtain ⟨b1, j1⟩ := r
  simp only at h1 h2 h3
  subst h1
  have hlt : ¬ (j + p.length ≥ len) := by omega
  simp only [hlt, if_false]
  refine ⟨_, rfl, by simpa using h2, ?_⟩
  rw [take_set_succ 0 b1 (j + p.length) (by omega), h3]

theorem append_argument_overflow (buffer : List Nat) (len j : Nat) (p : List Nat)
    (hnul : NulFree p) (hj : j ≤ len) (hover : len ≤ j + p.length) :
    append_argument buffer len j p = .error "maximum number of arguments exceeded" := by
  have h := append_loop_snd len p buffer j hnul hj
  unfold append_argument
  generalize append_loop len p buffer j = r at h
  obtain ⟨b1, j1⟩ := r
  simp only at h
  have : j1 ≥ len := by omega
  simp [this]

theorem terminated_length (es : List (List Nat)) :
    (terminated es).length = (es.map (fun a => a.length + 1)).sum := by
  induction es with
  | nil => rfl
  | cons e es ih => simp only [terminated, List.length_append, List.length_cons, ih, List.map_cons, List.sum_cons]; omega

theorem prepare_env_spec (getenv : List Nat → Option (List Nat)) (len : Nat) :
    ∀ (names : List (List Nat)) (buffer : List Nat) (j : Nat),
    (∀ name ∈ names, NulFree name) →
    (∀ name ∈ names, ∀ v, getenv name = some v → NulFree v) →
    j + envSize getenv names ≤ len → len ≤ buffer.length →
    ∃ b, prepare_env getenv len names (buffer, j) = .ok (b, j + envSize getenv names)
      ∧ b.length = buffer.length
      ∧ b.take (j + envSize getenv names)
          = buffer.take j ++ terminated (names.map (envEntry getenv)) := by
  intro names
  induction names with
  | nil => intro buffer j _ _ _ _; exact ⟨buffer, by simp [prepare_env, envSize, terminated]⟩
  | cons name rest ih =>
    intro buffer j hn hv hfit hb
    have hname : NulFree name := hn name (by simp)
    have hrestn : ∀ x ∈ rest, NulFree x := fun x hx => hn x (by simp [hx])
    have hrestv : ∀ x ∈ rest, ∀ v, getenv x = some v → NulFree v :=
      fun x hx => hv x (by simp [hx])
    have hsz : envSize getenv (name :: rest)
        = (envEntry getenv name).length + 1 + envSize getenv rest := by
      simp [envSize]
    rw [hsz] at hfit ⊢
    cases hg : getenv name with
    | none =>
      have hentry : envEntry getenv name = name := by simp [envEntry, hg]
      rw [hentry] at hfit ⊢
      obtain ⟨b1, e1, l1, t1⟩ := append_argument_spec buffer len j name hname (by omega) hb
      obtain ⟨b2, e2, l2, t2⟩ := ih b1 (j + name.length + 1) hrestn hrestv (by omega) (by omega)
      refine ⟨b2, ?_, by omega, ?_⟩
      · simp only [prepare_env, e1, hg, bind, Except.bind]
        rw [e2]
        congr 2; omega
      · have e : j + (name.length + 1 + envSize getenv rest)
            = j + name.length + 1 + envSize getenv rest := by omega
        rw [e, t2, t1]
        simp [terminated, hentry]
    | some v =>
      have hval : NulFree v := hv name (by simp) v hg
      have hentry : envEntry getenv name = name ++ cstr "=" ++ v := by simp [envEntry, hg]
      have heq : NulFree (cstr "=") := by intro c hc; simp [cstr] at hc; omega
      have hlen : (envEntry getenv name).length = name.length + 1 + v.length := by
        simp [hentry, cstr]; omega
      rw [hlen] at hfit ⊢
      obtain ⟨b1, e1, l1, t1⟩ := append_argument_spec buffer len j name hname (by omega) hb
      have t1p : b1.take (j + name.length) = buffer.take j ++ name :=
        take_pred_of_snoc b1 _ _ 0 (by omega) t1
      obtain ⟨b2, e2, l2, t2⟩ := append_argument_spec b1 len (j + name.length) (cstr "=") heq
        (by simp [cstr]; omega) (by omega)
      have hc1 : (cstr "=").length = 1 := by simp [cstr]
      rw [hc1] at e2 t2
      have t2p : b2.take (j + name.length + 1) = buffer.take j ++ name ++ cstr "=" := by
        have := take_pred_of_snoc b2 _ _ 0 (by omega) t2
        rw [this, t1p]
      obtain ⟨b3, e3, l3, t3⟩ := append_argument_spec b2 len (j + name.length + 1) v hval
        (by omega) (by omega)
      obtain ⟨b4, e4, l4, t4⟩ := ih b3 (j + name.length + 1 + v.length + 1) hrestn hrestv
        (by omega) (by omega)
      refine ⟨b4, ?_, by omega, ?_⟩
      · simp only [prepare_env, e1, hg, bind, Except.bind, Nat.add_sub_cancel, e2, e3]
        rw [e4]
        congr 2; omega
      · have e : j + (name.length + 1 + v.length + 1 + envSize getenv rest)
            = j + name.length + 1 + v.length + 1 + envSize getenv rest := by omega
        rw [e, t4, t3, t2p]
        simp [terminated, hentry]

theorem prepare_argv_spec (len : Nat) :
    ∀ (argv : List (List Nat)) (buffer : List Nat) (j : Nat),
    (∀ a ∈ argv, NulFree a) → j + argvSize argv ≤ len → len ≤ buffer.length →
    ∃ b, prepare_argv len argv (buffer, j) = .ok (b, j + argvSize argv)
      ∧ b.length = buffer.length
      ∧ b.take (j + argvSize argv) = buffer.take j ++ terminated argv := by
  intro argv
  induction argv with
  | nil => intro buffer j _ _ _; exact ⟨buffer, by simp [prepare_argv, argvSize, terminated]⟩
  | cons a rest ih =>
    intro buffer j hn hfit hb
    have ha : NulFree a := hn a (by simp)
    have hrest : ∀ x ∈ rest, NulFree x := fun x hx => hn x (by simp [hx])
    have hsz : argvSize (a :: rest) = a.length + 1 + argvSize rest := by simp [argvSize]
    rw [hsz] at hfit ⊢
    obtain ⟨b1, e1, l1, t1⟩ := append_argument_spec buffer len j a ha (by omega) hb
    obtain ⟨b2, e2, l2, t2⟩ := ih b1 (j + a.length + 1) hrest (by omega) (by omega)
    have hj : j < len := by omega
    refine ⟨b2, ?_, by omega, ?_⟩
    · simp only [prepare_argv, hj, if_true, e1, bind, Except.bind]
      rw [e2]
      congr 2; omega
    · have e : j + (a.length + 1 + argvSize rest) = j + a.length + 1 + argvSize rest := by omega
      rw [e, t2, t1]
      simp [terminated]

theorem byte_eq (x n : Nat) : byte x n = x / 2 ^ (n * 8) % 256 := by
  have h : (0xFF : Nat) = 2 ^ 8 - 1 := by norm_num
  unfold byte
  rw [h, Nat.and_pow_two_sub_one_eq_mod, Nat.shiftRight_eq_div_pow]
  exact Nat.mod_mod_of_dvd _ (by norm_num)

theorem header_bytes (j : Nat) : [byte j 0, byte j 1, byte j 2, byte j 3] = le32 j := by
  simp [byte_eq, le32]

theorem set_header (x0 x1 x2 x3 : Nat) (b h t : List Nat) (n : Nat) (hh : h.length = 4)
    (hle : n ≤ b.length) (ht : b.take n = h ++ t) :
    ((((b.set 0 x0).set 1 x1).set 2 x2).set 3 x3).take n = [x0, x1, x2, x3] ++ t := by
  have hb : b = h ++ t ++ b.drop n := by rw [← ht]; simp
  have hn : n = (h ++ t).length := by
    have := congrArg List.length ht
    simp at this ⊢
    omega
  match h, hh with
  | [a0, a1, a2, a3], _ =>
    rw [hb]
    simp only [List.cons_append, List.nil_append, List.set_cons_zero, List.set_cons_succ]
    rw [hn]
    simp

theorem encodedSize_eq (getenv : List Nat → Option (List Nat)) (argv : List (List Nat)) :
    encodedSize getenv argv = 4 + envSize getenv envvars + 1 + argvSize argv := by
  simp only [encodedSize, envSize, argvSize]; omega

theorem envvars_nulFree : ∀ name ∈ envvars, NulFree name := by
  intro name h c hc
  simp [envvars, cstr] at h
  rcases h with h | h | h <;> subst h <;> simp at hc <;> omega

theorem prepare_args_layout (getenv : List Nat → Option (List Nat)) (buffer : List Nat)
    (len : Nat) (argv : List (List Nat))
    (hv : ∀ name ∈ envvars, ∀ v, getenv name = some v → NulFree v)
    (ha : ∀ a ∈ argv, NulFree a)
    (hsize : encodedSize getenv argv ≤ len) (hcap : len ≤ buffer.length) :
    ∃ b, prepare_args getenv buffer len argv = .ok (b, encodedSize getenv argv)
      ∧ b.length = buffer.length
      ∧ b.take (encodedSize getenv argv) = wireLayout getenv argv := by
  rw [encodedSize_eq] at hsize
  obtain ⟨b1, e1, l1, t1⟩ := prepare_env_spec getenv len envvars buffer 4 envvars_nulFree hv
    (by omega) hcap
  obtain ⟨b2, e2, l2, t2⟩ := append_argument_spec b1 len (4 + envSize getenv envvars) []
    (by intro c hc; simp at hc) (by simp; omega) (by omega)
  simp only [List.length_nil, Nat.add_zero] at e2 t2
  obtain ⟨b3, e3, l3, t3⟩ := prepare_argv_spec len argv b2 (4 + envSize getenv envvars + 1) ha
    (by omega) (by omega)
  have hcs : cstr "" = [] := rfl
  refine ⟨(((b3.set 0 (byte (encodedSize getenv argv) 0)).set 1
    (byte (encodedSize getenv argv) 1)).set 2 (byte (encodedSize getenv argv) 2)).set 3
    (byte (encodedSize getenv argv) 3), ?_, ?_, ?_⟩
  · simp only [prepare_args, e1, bind, Except.bind, hcs, e2, e3]
    rw [encodedSize_eq]
  · simp; omega
  · rw [encodedSize_eq]
    have h4 : (buffer.take 4).length = 4 := by simp; omega
    have ht : b3.take (4 + envSize getenv envvars + 1 + argvSize argv)
        = buffer.take 4 ++ wireBody getenv argv := by
      rw [t3, t2, t1]; simp [wireBody]
    rw [set_header _ _ _ _ b3 _ _ _ h4 (by omega) ht, header_bytes, wireLayout, encodedSize_eq]

theorem splitNul_entry : ∀ (p acc rest : List Nat), NulFree p →
    splitNul acc (p ++ 0 :: rest) = (acc.reverse ++ p) :: splitNul [] rest := by
  intro p
  induction p with
  | nil => intro acc rest _; simp [splitNul]
  | cons c p ih =>
    intro acc rest hnul
    have hc : c ≠ 0 := hnul c (by simp)
    have hp : NulFree p := fun d hd => hnul d (by simp [hd])
    simp [splitNul, hc, ih (c :: acc) rest hp]

theorem splitNul_terminated : ∀ (es : List (List Nat)), (∀ e ∈ es, NulFree e) →
    splitNul [] (terminated es) = es := by
  intro es
  induction es with
  | nil => intro _; rfl
  | cons e es ih =>
    intro h
    have he : NulFree e := h e (by simp)
    have hes : ∀ x ∈ es, NulFree x := fun x hx => h x (by simp [hx])
    simp [terminated, splitNul_entry e [] _ he, ih hes]

theorem terminated_append : ∀ (xs ys : List (List Nat)),
    terminated (xs ++ ys) = terminated xs ++ terminated ys := by
  intro xs
  induction xs with
  | nil => intro ys; rfl
  | cons x xs ih => intro ys; simp [terminated, ih]

theorem wireBody_eq (getenv : List Nat → Option (List Nat)) (argv : List (List Nat)) :
    wireBody getenv argv = terminated (envvars.map (envEntry getenv) ++ [] :: argv) := by
  simp [wireBody, terminated_append, terminated]

theorem takeWhile_nonempty : ∀ (xs : List (List Nat)) (ys : List (List Nat)),
    (∀ e ∈ xs, e ≠ []) →
    (xs ++ [] :: ys).takeWhile (fun e => !e.isEmpty) = xs
    ∧ (xs ++ [] :: ys).dropWhile (fun e => !e.isEmpty) = [] :: ys := by
  intro xs
  induction xs with
  | nil => intro ys _; simp
  | cons x xs ih =>
    intro ys h
    have hx : x ≠ [] := h x (by simp)
    have hxs : ∀ e ∈ xs, e ≠ [] := fun e he => h e (by simp [he])
    obtain ⟨h1, h2⟩ := ih ys hxs
    have : x.isEmpty = false := by cases x <;> simp_all
    simp [List.takeWhile, List.dropWhile, this, h1, h2]

theorem splitAtEq_name : ∀ (name : List Nat), (∀ c ∈ name, c ≠ 61) →
    splitAtEq name = (name, none) := by
  intro name
  induction name with
  | nil => intro _; rfl
  | cons c p ih =>
    intro h
    have hc : c ≠ 61 := h c (by simp)
    have hp : ∀ d ∈ p, d ≠ 61 := fun d hd => h d (by simp [hd])
    simp [splitAtEq, hc, ih hp]

theorem splitAtEq_pair : ∀ (name v : List Nat), (∀ c ∈ name, c ≠ 61) →
    splitAtEq (name ++ 61 :: v) = (name, some v) := by
  intro name
  induction name with
  | nil => intro v _; simp [splitAtEq]
  | cons c p ih =>
    intro v h
    have hc : c ≠ 61 := h c (by simp)
    have hp : ∀ d ∈ p, d ≠ 61 := fun d hd => h d (by simp [hd])
    simp [splitAtEq, hc, ih v hp]

theorem splitAtEq_envEntry (getenv : List Nat → Option (List Nat)) (name : List Nat)
    (h : ∀ c ∈ name, c ≠ 61) : splitAtEq (envEntry getenv name) = (name, getenv name) := by
  unfold envEntry
  cases hg : getenv name with
  | none => simpa using splitAtEq_name name h
  | some v =>
    have : cstr "=" = [61] := by decide
    simpa [this] using splitAtEq_pair name v h

theorem envvars_noEq : ∀ name ∈ envvars, ∀ c ∈ name, c ≠ 61 := by
  intro name h c hc
  simp [envvars, cstr] at h
  rcases h with h | h | h <;> subst h <;> simp at hc <;> omega

theorem envEntry_nulFree (getenv : List Nat → Option (List Nat))
    (hv : ∀ name ∈ envvars, ∀ v, getenv name = some v → NulFree v) :
    ∀ e ∈ envvars.map (envEntry getenv), NulFree e ∧ e ≠ [] := by
  intro e he
  obtain ⟨name, hn, rfl⟩ := List.mem_map.1 he
  have hname := envvars_nulFree name hn
  have hne : name ≠ [] := by
    simp [envvars, cstr] at hn
    rcases hn with h | h | h <;> subst h <;> simp
  unfold envEntry
  cases hg : getenv name with
  | none => exact ⟨hname, hne⟩
  | some v =>
    refine ⟨?_, by simp [hne]⟩
    intro c hc
    simp only [List.mem_append] at hc
    rcases hc with (hc | hc) | hc
    · exact hname c hc
    · simp [cstr] at hc; omega
    · exact hv name hn v hg c hc

theorem readLength_le32 (n : Nat) (t : List Nat) (h : n < 2 ^ 32) :
    readLength (le32 n ++ t) = n := by
  simp [readLength, le32]
  omega

theorem decode_wireLayout (getenv : List Nat → Option (List Nat)) (argv : List (List Nat))
    (b : List Nat)
    (hv : ∀ name ∈ envvars, ∀ v, getenv name = some v → NulFree v)
    (ha : ∀ a ∈ argv, NulFree a) (h32 : encodedSize getenv argv < 2 ^ 32)
    (hb : b.take (encodedSize getenv argv) = wireLayout getenv argv) :
    decode_request b = (envvars.map (fun name => (name, getenv name)), argv) := by
  have hsplit : b = wireLayout getenv argv ++ b.drop (encodedSize getenv argv) := by
    rw [← hb]; simp
  have hrl : readLength b = encodedSize getenv argv := by
    rw [hsplit, wireLayout, List.append_assoc]
    exact readLength_le32 _ _ h32
  have hentries : ∀ e ∈ envvars.map (envEntry getenv) ++ [] :: argv, NulFree e := by
    intro e he
    rcases List.mem_append.1 he with h | h
    · exact (envEntry_nulFree getenv hv e h).1
    · rcases List.mem_cons.1 h with h | h
      · subst h; intro c hc; simp at hc
      · exact ha e h
  have hbody : (b.take (readLength b)).drop 4 = wireBody getenv argv := by
    rw [hrl, hb, wireLayout]
    simp [le32]
  obtain ⟨h1, h2⟩ := takeWhile_nonempty (envvars.map (envEntry getenv)) argv
    (fun e he => (envEntry_nulFree getenv hv e he).2)
  unfold decode_request
  simp only [hbody, wireBody_eq, splitNul_terminated _ hentries, h1, h2, List.drop_succ_cons,
    List.drop_zero, List.map_map, Prod.mk.injEq, and_true]
  apply List.map_congr_left
  intro name hn
  exact splitAtEq_envEntry getenv name (envvars_noEq name hn)

theorem prepare_argv_append (len : Nat) : ∀ (pre rest : List (List Nat)) (s : List Nat × Nat),
    prepare_argv len (pre ++ rest) s = (prepare_argv len pre s).bind (prepare_argv len rest) := by
  intro pre
  induction pre with
  | nil => intro rest s; simp [prepare_argv, Except.bind]
  | cons a pre ih =>
    intro rest s
    obtain ⟨buffer, j⟩ := s
    by_cases hj : j < len
    · simp only [List.cons_append, prepare_argv, hj, if_true, bind]
      cases append_argument buffer len j a with
      | error e => rfl
      | ok s1 => simp only [Except.bind]; exact ih rest s1
    · simp only [List.cons_append, prepare_argv, hj, if_false, Except.bind]
      cases rest with
      | nil => simp [prepare_argv]
      | cons r rs => simp [prepare_argv, hj]

theorem argbuffer_length : argbuffer.length = 65536 := List.length_replicate _ _

theorem fillingArgument_length : fillingArgument.length = 65495 := List.length_replicate _ _

theorem fillingArgument_nulFree : ∀ a ∈ [fillingArgument], NulFree a := by
  intro a h c hc
  rw [List.mem_singleton] at h
  subst h
  have := List.eq_of_mem_replicate hc
  omega

theorem envSize_unset : envSize (fun _ => none) envvars = 35 := by decide

theorem argvSize_filling : argvSize [fillingArgument] = 65496 := by
  simp only [argvSize, List.map_cons, List.map_nil, List.sum_cons, List.sum_nil,
    fillingArgument_length]
  norm_num

theorem argvSize_filling_two : argvSize [fillingArgument, cstr "x"] = 65498 := by
  have : (cstr "x").length = 1 := by decide
  simp only [argvSize, List.map_cons, List.map_nil, List.sum_cons, List.sum_nil,
    fillingArgument_length, this]
  norm_num

theorem fillingArgument_size : encodedSize (fun _ => none) [fillingArgument] = 65536 := by
  rw [encodedSize_eq, argvSize_filling, envSize_unset]

theorem fillingArgument_size_two :
    encodedSize (fun _ => none) [fillingArgument, cstr "x"] = 65538 := by
  rw [encodedSize_eq, argvSize_filling_two, envSize_unset]

theorem wireLayout_length (getenv : List Nat → Option (List Nat)) (argv : List (List Nat)) :
    (wireLayout getenv argv).length = encodedSize getenv argv := by
  simp only [wireLayout, wireBody, le32, List.length_append, List.length_cons, List.length_nil,
    terminated_length, encodedSize, List.map_map]
  have : (List.map ((fun a => a.length + 1) ∘ envEntry getenv) envvars)
      = List.map (fun name => (envEntry getenv name).length + 1) envvars := rfl
  rw [this]
  omega

theorem prepare_args_full (getenv : List Nat → Option (List Nat)) (buffer : List Nat)
    (len : Nat) (pre rest : List (List Nat))
    (hv : ∀ name ∈ envvars, ∀ v, getenv name = some v → NulFree v)
    (ha : ∀ a ∈ pre, NulFree a)
    (hfill : encodedSize getenv pre = len) (hcap : len ≤ buffer.length) :
    prepare_args getenv buffer len (pre ++ rest) = prepare_args getenv buffer len pre := by
  rw [encodedSize_eq] at hfill
  obtain ⟨b1, e1, l1, t1⟩ := prepare_env_spec getenv len envvars buffer 4 envvars_nulFree hv
    (by omega) hcap
  obtain ⟨b2, e2, l2, t2⟩ := append_argument_spec b1 len (4 + envSize getenv envvars) []
    (by intro c hc; simp at hc) (by simp; omega) (by omega)
  simp only [List.length_nil, Nat.add_zero] at e2
  obtain ⟨b3, e3, l3, t3⟩ := prepare_argv_spec len pre b2 (4 + envSize getenv envvars + 1) ha
    (by omega) (by omega)
  have hcs : cstr "" = [] := rfl
  have hstop : prepare_argv len rest (b3, 4 + envSize getenv envvars + 1 + argvSize pre)
      = .ok (b3, 4 + envSize getenv envvars + 1 + argvSize pre) := by
    have hj : ¬ (4 + envSize getenv envvars + 1 + argvSize pre < len) := by omega
    cases rest with
    | nil => simp [prepare_argv]
    | cons r rs => simp [prepare_argv, hj]
  simp only [prepare_args, e1, bind, Except.bind, hcs, e2, prepare_argv_append, e3, hstop]

/-- C1. Round trip of the argument encoder: when the three allow-listed variables are unset or
set to NUL-free values, the arguments are NUL-free and the encoded size is at most the buffer
capacity `len`, `prepare_args` succeeds with that size and decoding the buffer it wrote gives
back the set/unset state and value of every variable and the argument list in order. -/
theorem prepare_args_roundtrip (getenv : List Nat → Option (List Nat)) (buffer : List Nat)
    (len : Nat) (argv : List (List Nat))
    (hv : ∀ name ∈ envvars, ∀ v, getenv name = some v → NulFree v)
    (ha : ∀ a ∈ argv, NulFree a)
    (hsize : encodedSize getenv argv ≤ len) (hcap : len ≤ buffer.length)
    (h32 : len < 2 ^ 32) :
    ∃ b, prepare_args getenv buffer len argv = .ok (b, encodedSize getenv argv)
      ∧ decode_request b = (envvars.map (fun name => (name, getenv name)), argv) := by
  obtain ⟨b, e, _, t⟩ := prepare_args_layout getenv buffer len argv hv ha hsize hcap
  exact ⟨b, e, decode_wireLayout getenv argv b hv ha (by omega) t⟩

theorem prepare_args_roundtrip_witness :
    ∃ b, prepare_args (fun name => if name = cstr "OCAMLLIB" then some (cstr "a=b") else none)
          argbuffer 65536 [cstr "--version", [], cstr "x"]
        = .ok (b, encodedSize
            (fun name => if name = cstr "OCAMLLIB" then some (cstr "a=b") else none)
            [cstr "--version", [], cstr "x"])
      ∧ decode_request b
        = ([(cstr "OCAMLLIB", some (cstr "a=b")), (cstr "OCAMLFIND_CONF", none),
            (cstr "MERLIN_LOG", none)], [cstr "--version", [], cstr "x"]) :=
  prepare_args_roundtrip _ argbuffer 65536 [cstr "--version", [], cstr "x"]
    (by
      intro name _ v h
      split at h
      · cases h; decide
      · cases h)
    (by decide) (by decide) (by rw [argbuffer_length]) (by decide)

/-- C2. At the real capacity 65536 with no variable set, the arguments
`[65495 × 'a', "x"]` encode to 65538 bytes, more than the capacity, yet `prepare_args`
returns the length 65536 instead of failing: the first argument fills the buffer exactly and
the loop guard `j < len` drops the second one. -/
theorem prepare_args_returns_on_overflow :
    encodedSize (fun _ => none) [fillingArgument, cstr "x"] = 65538
    ∧ ∃ b, prepare_args (fun _ => none) argbuffer 65536 [fillingArgument, cstr "x"]
        = .ok (b, 65536) := by
  refine ⟨fillingArgument_size_two, ?_⟩
  obtain ⟨b, e, _, _⟩ := prepare_args_layout (fun _ => none) argbuffer 65536
    [fillingArgument] (by intro _ _ v h; cases h) fillingArgument_nulFree
    (by rw [fillingArgument_size]) (by rw [argbuffer_length])
  refine ⟨b, ?_⟩
  have := prepare_args_full (fun _ => none) argbuffer 65536
    [fillingArgument] [cstr "x"] (by intro _ _ v h; cases h) fillingArgument_nulFree
    fillingArgument_size (by rw [argbuffer_length])
  rw [fillingArgument_size] at e
  simpa [e] using this

/-- C3. At the same input the 65536 bytes that `prepare_args` reports are the wire layout of
the first argument alone, not the layout of the two arguments it was given. -/
theorem prepare_args_layout_misses_argument :
    ∃ b, prepare_args (fun _ => none) argbuffer 65536 [fillingArgument, cstr "x"]
        = .ok (b, 65536)
      ∧ b.take 65536 = wireLayout (fun _ => none) [fillingArgument]
      ∧ b.take 65536 ≠ wireLayout (fun _ => none) [fillingArgument, cstr "x"] := by
  obtain ⟨b, e, _, t⟩ := prepare_args_layout (fun _ => none) argbuffer 65536
    [fillingArgument] (by intro _ _ v h; cases h) fillingArgument_nulFree
    (by rw [fillingArgument_size]) (by rw [argbuffer_length])
  have := prepare_args_full (fun _ => none) argbuffer 65536
    [fillingArgument] [cstr "x"] (by intro _ _ v h; cases h) fillingArgument_nulFree
    fillingArgument_size (by rw [argbuffer_length])
  rw [fillingArgument_size] at e t
  refine ⟨b, by simpa [e] using this, t, ?_⟩
  intro h
  have h1 := congrArg List.length h
  rw [wireLayout_length, fillingArgument_size_two, List.length_take] at h1
  omega

theorem decimalAux_append : ∀ (fuel n : Nat) (acc : List Nat),
    decimalAux fuel n acc = decimalAux fuel n [] ++ acc := by
  intro fuel
  induction fuel with
  | zero => intro n acc; simp [decimalAux]
  | succ k ih =>
    intro n acc
    by_cases h : n < 10
    · simp [decimalAux, h]
    · simp only [decimalAux, h, if_false]
      rw [ih (n / 10) ((48 + n % 10) :: acc), ih (n / 10) [48 + n % 10]]
      simp

theorem parseDecimal_decimalAux : ∀ (fuel n : Nat), n < fuel →
    parseDecimal (decimalAux fuel n []) = n := by
  intro fuel
  induction fuel with
  | zero => intro n h; omega
  | succ k ih =>
    intro n hn
    by_cases h : n < 10
    · simp [decimalAux, h, parseDecimal]
    · simp only [decimalAux, h, if_false]
      rw [decimalAux_append]
      have := ih (n / 10) (by omega)
      simp only [parseDecimal] at this ⊢
      rw [List.foldl_append, this]
      simp
      omega

theorem parseDecimal_decimal (n : Nat) : parseDecimal (decimal n) = n :=
  parseDecimal_decimalAux (n + 1) n (by omega)

theorem decimal_injective (a b : Nat) (h : decimal a = decimal b) : a = b := by
  rw [← parseDecimal_decimal a, ← parseDecimal_decimal b, h]

theorem decimalAux_digits : ∀ (fuel n : Nat) (acc : List Nat),
    ∀ c ∈ decimalAux fuel n acc, c ∈ acc ∨ (48 ≤ c ∧ c ≤ 57) := by
  intro fuel
  induction fuel with
  | zero => intro n acc c hc; left; simpa [decimalAux] using hc
  | succ k ih =>
    intro n acc c hc
    by_cases h : n < 10
    · simp only [decimalAux, h, if_true, List.mem_cons] at hc
      rcases hc with hc | hc
      · right; omega
      · left; exact hc
    · simp only [decimalAux, h, if_false] at hc
      rcases ih (n / 10) _ c hc with h1 | h1
      · rcases List.mem_cons.1 h1 with h2 | h2
        · right; omega
        · left; exact h2
      · right; exact h1

theorem decimal_digits (n c : Nat) (hc : c ∈ decimal n) : 48 ≤ c ∧ c ≤ 57 := by
  rcases decimalAux_digits (n + 1) n [] c hc with h | h
  · simp at h
  · exact h

theorem decimalAux_length : ∀ (fuel n k : Nat), n < 10 ^ (k + 1) →
    (decimalAux fuel n []).length ≤ k + 1 := by
  intro fuel
  induction fuel with
  | zero => intro n k _; simp [decimalAux]
  | succ f ih =>
    intro n k hn
    by_cases h : n < 10
    · simp [decimalAux, h]
    · simp only [decimalAux, h, if_false]
      rw [decimalAux_append]
      cases k with
      | zero => simp at hn; omega
      | succ k =>
        have hdiv : n / 10 < 10 ^ (k + 1) := by
          rw [Nat.div_lt_iff_lt_mul (by norm_num)]
          calc n < 10 ^ (k + 1 + 1) := hn
            _ = 10 ^ (k + 1) * 10 := by ring
        have := ih (n / 10) k hdiv
        simp
        omega

theorem decimal_length_u64 (n : Nat) (h : n < 2 ^ 64) : (decimal n).length ≤ 20 :=
  decimalAux_length (n + 1) n 19 (by omega)

theorem split_at_separator (s : Nat) : ∀ (a b r t : List Nat),
    (∀ c ∈ a, c ≠ s) → (∀ c ∈ b, c ≠ s) → a ++ s :: r = b ++ s :: t → a = b ∧ r = t := by
  intro a
  induction a with
  | nil =>
    intro b r t _ hb h
    cases b with
    | nil => simpa using h
    | cons y ys =>
      simp at h
      exact absurd h.1.symm (hb y (by simp))
  | cons x xs ih =>
    intro b r t ha hb h
    cases b with
    | nil =>
      simp at h
      exact absurd h.1 (ha x (by simp))
    | cons y ys =>
      simp only [List.cons_append, List.cons.injEq] at h
      obtain ⟨h1, h2⟩ := ih ys r t (fun c hc => ha c (by simp [hc]))
        (fun c hc => hb c (by simp [hc])) h.2
      exact ⟨by rw [h.1, h1], h2⟩

theorem format_socketname_eq (PATH_MAX uid dev ino : Nat) (hpath : 81 ≤ PATH_MAX)
    (hu : uid < 2 ^ 64) (hd : dev < 2 ^ 64) (hi : ino < 2 ^ 64) :
    format_socketname PATH_MAX uid dev ino
      = cstr "ocamlmerlin_" ++ decimal uid ++ cstr "_" ++ decimal dev ++ cstr "_"
          ++ decimal ino ++ cstr ".socket" := by
  have h1 := decimal_length_u64 uid hu
  have h2 := decimal_length_u64 dev hd
  have h3 := decimal_length_u64 ino hi
  have c1 : (cstr "ocamlmerlin_").length = 12 := by decide
  have c2 : (cstr "_").length = 1 := by decide
  have c3 : (cstr ".socket").length = 7 := by decide
  unfold format_socketname snprintf
  rw [Nat.mod_eq_of_lt hu, Nat.mod_eq_of_lt hd, Nat.mod_eq_of_lt hi]
  apply List.take_of_length_le
  simp only [List.length_append, c1, c2, c3]
  omega

/-- C4. The socket name is a total function of (uid, dev, inode): for unsigned 64-bit values
and a buffer of PATH_MAX + 1 ≥ 82 bytes it is exactly
"ocamlmerlin_<uid>_<dev>_<inode>.socket" in decimal, untruncated, and two triples give the same
name if and only if they are the same triple. -/
theorem format_socketname_injective (PATH_MAX uid dev ino uid' dev' ino' : Nat)
    (hpath : 81 ≤ PATH_MAX)
    (hu : uid < 2 ^ 64) (hd : dev < 2 ^ 64) (hi : ino < 2 ^ 64)
    (hu' : uid' < 2 ^ 64) (hd' : dev' < 2 ^ 64) (hi' : ino' < 2 ^ 64) :
    format_socketname PATH_MAX uid dev ino
      = cstr "ocamlmerlin_" ++ decimal uid ++ cstr "_" ++ decimal dev ++ cstr "_"
          ++ decimal ino ++ cstr ".socket"
    ∧ (format_socketname PATH_MAX uid dev ino = format_socketname PATH_MAX uid' dev' ino'
        ↔ uid = uid' ∧ dev = dev' ∧ ino = ino') := by
  refine ⟨format_socketname_eq PATH_MAX uid dev ino hpath hu hd hi, ?_⟩
  constructor
  · intro h
    rw [format_socketname_eq PATH_MAX uid dev ino hpath hu hd hi,
      format_socketname_eq PATH_MAX uid' dev' ino' hpath hu' hd' hi'] at h
    have e1 : cstr "_" = [95] := by decide
    have e2 : cstr ".socket" = 46 :: cstr "socket" := by decide
    simp only [List.append_assoc, e1, e2, List.singleton_append] at h
    have h := List.append_cancel_left h
    have nd : ∀ n c, c ∈ decimal n → c ≠ 95 := fun n c hc => by
      have := decimal_digits n c hc; omega
    have nd2 : ∀ n c, c ∈ decimal n → c ≠ 46 := fun n c hc => by
      have := decimal_digits n c hc; omega
    obtain ⟨a1, h⟩ := split_at_separator 95 _ _ _ _ (nd uid) (nd uid') h
    obtain ⟨a2, h⟩ := split_at_separator 95 _ _ _ _ (nd dev) (nd dev') h
    obtain ⟨a3, _⟩ := split_at_separator 46 _ _ _ _ (nd2 ino) (nd2 ino') h
    exact ⟨decimal_injective _ _ a1, decimal_injective _ _ a2, decimal_injective _ _ a3⟩
  · rintro ⟨rfl, rfl, rfl⟩
    rfl

theorem format_socketname_injective_witness :
    format_socketname 4096 1000 2049 131
      = cstr "ocamlmerlin_" ++ decimal 1000 ++ cstr "_" ++ decimal 2049 ++ cstr "_"
          ++ decimal 131 ++ cstr ".socket"
    ∧ (format_socketname 4096 1000 2049 131 = format_socketname 4096 1000 2049 132
        ↔ 1000 = 1000 ∧ 2049 = 2049 ∧ 131 = 132) :=
  format_socketname_injective 4096 1000 2049 131 1000 2049 132 (by decide) (by decide)
    (by decide) (by decide) (by decide) (by decide) (by decide)

theorem copy_dir_long (PATH_MAX : Nat) : ∀ (n i : Nat) (stores : List Store),
    i ≤ PATH_MAX → PATH_MAX ≤ i + n →
    (copy_dir PATH_MAX (List.replicate n 97) i stores).2.1 = PATH_MAX := by
  intro n
  induction n with
  | zero => intro i stores h1 h2; simp [copy_dir]; omega
  | succ n ih =>
    intro i stores h1 h2
    rw [List.replicate_succ]
    by_cases h : i < PATH_MAX
    · have h' : i < PATH_MAX + 1 - 1 ∧ (97 : Nat) ≠ 58 := ⟨by omega, by decide⟩
      simp only [copy_dir, h', and_self, if_true]
      exact ih (i + 1) _ (by omega) (by omega)
    · have h' : ¬ (i < PATH_MAX + 1 - 1 ∧ (97 : Nat) ≠ 58) := by
        intro hc; omega
      simp only [copy_dir, h', if_false]
      omega

theorem copy_file_full (PATH_MAX : Nat) (file : List Nat) (stores : List Store) :
    copy_file PATH_MAX file (PATH_MAX + 1) stores = (PATH_MAX + 1, stores) := by
  cases file with
  | nil => rfl
  | cons c file => simp [copy_file]

theorem search_loop_stores (PATH_MAX : Nat) (realpath : List Nat → Option (List Nat))
    (argv0 : List Nat) : ∀ (fuel : Nat) (PATH : List Nat) (stores : List Store),
    ∃ more, (search_loop PATH_MAX realpath argv0 fuel PATH stores).2 = stores ++ more := by
  intro fuel
  induction fuel with
  | zero => intro PATH stores; exact ⟨[], by simp [search_loop]⟩
  | succ fuel ih =>
    intro PATH stores
    cases PATH with
    | nil => exact ⟨[], by simp [search_loop]⟩
    | cons c rest =>
      simp only [search_loop]
      split
      · exact ⟨_, by rw [List.append_assoc]⟩
      · obtain ⟨more, hm⟩ := ih (seek_next (copy_dir PATH_MAX (c :: rest) 0 []).1)
          (stores ++ (copy_file PATH_MAX argv0 ((copy_dir PATH_MAX (c :: rest) 0 []).2.1 + 1)
            ((copy_dir PATH_MAX (c :: rest) 0 []).2.2
              ++ [⟨(copy_dir PATH_MAX (c :: rest) 0 []).2.1, 47⟩])).2
            ++ [⟨(copy_file PATH_MAX argv0 ((copy_dir PATH_MAX (c :: rest) 0 []).2.1 + 1)
            ((copy_dir PATH_MAX (c :: rest) 0 []).2.2
              ++ [⟨(copy_dir PATH_MAX (c :: rest) 0 []).2.1, 47⟩])).1, 0⟩])
        exact ⟨_, by rw [hm, List.append_assoc, List.append_assoc]⟩

theorem search_loop_overrun (m : Nat) (realpath : List Nat → Option (List Nat))
    (argv0 : List Nat) (fuel : Nat) :
    (⟨m + 2, 0⟩ : Store)
      ∈ (search_loop (m + 1) realpath argv0 (fuel + 1) (List.replicate (m + 1) 97) []).2 := by
  have hd := copy_dir_long (m + 1) (m + 1) 0 [] (by omega) (by omega)
  rw [List.replicate_succ] at hd ⊢
  simp only [search_loop]
  generalize copy_dir (m + 1) (97 :: List.replicate m 97) 0 [] = r at hd
  obtain ⟨P, i, dir⟩ := r
  simp only at hd
  subst hd
  simp only [copy_file_full]
  split
  · simp
  · obtain ⟨more, hm⟩ := search_loop_stores (m + 1) realpath argv0 fuel (seek_next P)
      ([] ++ (dir ++ [⟨m + 1, 47⟩]) ++ [⟨m + 1 + 1, 0⟩])
    rw [hm]
    simp

/-- C10. With PATH_MAX = 4096 (so binary_path has PATHSZ = 4097 bytes, indices 0..4096) and a
PATH holding one directory of 4096 characters, search_in_path stores the terminating NUL at
index 4097, one past the end of binary_path, whatever realpath answers. -/
theorem search_in_path_overruns_binary_path (realpath : List Nat → Option (List Nat)) :
    (⟨4097, 0⟩ : Store)
      ∈ (search_in_path 4096 realpath (some longDirectory) (some (cstr "ocamlmerlin"))).2 := by
  have hl : longDirectory.length = 4096 := List.length_replicate _ _
  simp only [search_in_path, hl]
  exact search_loop_overrun 4095 realpath (cstr "ocamlmerlin") 4096

theorem bind_apply {α β : Type} (m : M α) (f : α → M β) (p : Proc) :
    (m >>= f) p = match m p with
      | .ret a p => f a p
      | .halt p => .halt p
      | .blocked p => .blocked p := rfl

theorem pure_apply {α : Type} (a : α) (p : Proc) : (pure a : M α) p = .ret a p := rfl

theorem emits_mono {α : Type} {K L : List Kind} {m : M α} (h : Emits K m) (hKL : K ⊆ L) :
    Emits L m := by
  refine ⟨fun p => ?_⟩
  obtain ⟨new, h1, h2⟩ := h.out p
  exact ⟨new, h1, fun e he => hKL (h2 e he)⟩

theorem emits_pure {α : Type} (K : List Kind) (a : α) : Emits K (pure a : M α) :=
  ⟨fun p => ⟨[], by simp [pure_apply, Run.proc], by simp⟩⟩

theorem emits_bind {α β : Type} {K : List Kind} {m : M α} {f : α → M β}
    (hm : Emits K m) (hf : ∀ a, Emits K (f a)) : Emits K (m >>= f) := by
  refine ⟨fun p => ?_⟩
  obtain ⟨new, h1, h2⟩ := hm.out p
  rw [bind_apply]
  cases hr : m p with
  | ret a q =>
    rw [hr] at h1
    obtain ⟨new2, h3, h4⟩ := (hf a).out q
    refine ⟨new ++ new2, ?_, ?_⟩
    · simp only [Run.proc] at h1
      simp only [h3, h1, List.append_assoc]
    · intro e he
      rcases List.mem_append.1 he with h | h
      · exact h2 e h
      · exact h4 e h
  | halt q => rw [hr] at h1; exact ⟨new, h1, h2⟩
  | blocked q => rw [hr] at h1; exact ⟨new, h1, h2⟩

theorem emits_ofState {α : Type} {K : List Kind} {f : Proc → M α}
    (h : ∀ q, Emits K (f q)) : Emits K (fun p => f p p) :=
  ⟨fun p => (h p).out p⟩

theorem emits_emit {K : List Kind} (e : Event) (h : e.kind ∈ K) : Emits K (emit e) :=
  ⟨fun p => ⟨[e], rfl, by simpa using h⟩⟩

theorem emits_sys {K : List Kind} (c : Call) (h : c.kind ∈ K) : Emits K (sys c) := by
  refine ⟨fun p => ?_⟩
  unfold Merlin.sys
  cases p.script with
  | nil => exact ⟨[.pending c], rfl, by simpa [Event.kind] using h⟩
  | cons r rs => exact ⟨[.sys c r], rfl, by simpa [Event.kind] using h⟩

theorem NO_EINTR_loop_emits {K : List Kind} (c : Call) (h : c.kind ∈ K) :
    ∀ (script : List SysRes) (p : Proc),
    ∃ new, (NO_EINTR_loop c script p).proc.trace = p.trace ++ new ∧ ∀ e ∈ new, e.kind ∈ K := by
  intro script
  induction script with
  | nil => intro p; exact ⟨[.pending c], rfl, by simpa [Event.kind] using h⟩
  | cons r rs ih =>
    intro p
    unfold NO_EINTR_loop
    split
    · obtain ⟨new, h1, h2⟩ := ih { p with script := rs, trace := p.trace ++ [.sys c r] }
      refine ⟨.sys c r :: new, by simpa using h1, ?_⟩
      intro e he
      rcases List.mem_cons.1 he with h3 | h3
      · subst h3; simpa [Event.kind] using h
      · exact h2 e h3
    · exact ⟨[.sys c r], rfl, by simpa [Event.kind] using h⟩

theorem emits_NO_EINTR {K : List Kind} (c : Call) (h : c.kind ∈ K) : Emits K (NO_EINTR c) :=
  ⟨fun p => NO_EINTR_loop_emits c h p.script p⟩

theorem emits_exit {α : Type} {K : List Kind} (status : Int) (h : Kind.exitOp ∈ K) :
    Emits K (exit status : M α) :=
  ⟨fun p => ⟨[.exit status], rfl, by simpa [Event.kind] using h⟩⟩

theorem emits_abort {α : Type} {K : List Kind} (h : Kind.abortOp ∈ K) :
    Emits K (abort : M α) :=
  ⟨fun p => ⟨[.abort], rfl, by simpa [Event.kind] using h⟩⟩

theorem emits_exec {K : List Kind} (c : Call) (h : c.kind ∈ K) : Emits K (exec c) := by
  refine ⟨fun p => ?_⟩
  obtain ⟨new, h1, h2⟩ := (emits_sys c h).out p
  refine ⟨new, ?_, h2⟩
  unfold Merlin.exec
  cases hr : Merlin.sys c p with
  | ret r q =>
    rw [hr] at h1
    simp only
    split <;> exact h1
  | halt q => rw [hr] at h1; exact h1
  | blocked q => rw [hr] at h1; exact h1

theorem emits_dumpinfo {K : List Kind} (w : World) (h : Kind.stderrOp ∈ K) :
    Emits K (dumpinfo w) :=
  ⟨fun p => ⟨[.dumpinfo p.merlin_path (path_socketdir w) p.socketname], rfl,
    by simpa [Event.kind] using h⟩⟩

theorem emits_failwith_perror {α : Type} {K : List Kind} (w : World) (msg : String)
    (h1 : Kind.stderrOp ∈ K) (h2 : Kind.exitOp ∈ K) :
    Emits K (failwith_perror w msg : M α) :=
  emits_bind (emits_emit _ (by simpa [Event.kind] using h1))
    (fun _ => emits_bind (emits_dumpinfo w h1) (fun _ => emits_exit 1 h2))

theorem emits_failwith {α : Type} {K : List Kind} (w : World) (msg : String)
    (h0 : Kind.failwithOp ∈ K) (h1 : Kind.stderrOp ∈ K) (h2 : Kind.exitOp ∈ K) :
    Emits K (failwith w msg : M α) :=
  emits_bind (emits_emit _ (by simpa [Event.kind] using h0))
    (fun _ => emits_bind (emits_dumpinfo w h1) (fun _ => emits_exit 1 h2))

theorem connect_socket_emits {K : List Kind} (w : World) (socketname : List Nat) (fail : Bool)
    (hK : [Kind.socketOp, Kind.cwdOp, Kind.stderrOp, Kind.exitOp] ⊆ K) :
    Emits K (connect_socket w socketname fail) := by
  have h1 : Kind.socketOp ∈ K := hK (by simp)
  have h2 : Kind.cwdOp ∈ K := hK (by simp)
  have h3 : Kind.stderrOp ∈ K := hK (by simp)
  have h4 : Kind.exitOp ∈ K := hK (by simp)
  unfold connect_socket
  repeat (first
    | exact emits_pure _ _
    | exact emits_sys _ h1
    | exact emits_sys _ h2
    | exact emits_NO_EINTR _ h1
    | exact emits_failwith_perror _ _ h3 h4
    | apply emits_bind
    | intro _
    | split
    | dsimp only)

theorem make_daemon_emits {K : List Kind} (w : World) (sock : Int)
    (hK : [Kind.spawnOp, Kind.socketOp, Kind.cwdOp, Kind.stderrOp, Kind.exitOp] ⊆ K) :
    Emits K (make_daemon w sock) := by
  have h0 : Kind.spawnOp ∈ K := hK (by simp)
  have h1 : Kind.socketOp ∈ K := hK (by simp)
  have h2 : Kind.cwdOp ∈ K := hK (by simp)
  have h3 : Kind.stderrOp ∈ K := hK (by simp)
  have h4 : Kind.exitOp ∈ K := hK (by simp)
  unfold make_daemon
  repeat (first
    | exact emits_pure _ _
    | exact emits_sys _ h0
    | exact emits_sys _ h1
    | exact emits_sys _ h2
    | exact emits_failwith_perror _ _ h3 h4
    | exact emits_exit _ h4
    | apply emits_bind
    | intro _
    | split
    | dsimp only)

set_option maxRecDepth 8000 in
theorem start_server_emits {K : List Kind} (w : World) (socketname exec_path : List Nat)
    (hK : [Kind.spawnOp, Kind.socketOp, Kind.cwdOp, Kind.stderrOp, Kind.exitOp] ⊆ K) :
    Emits K (start_server w socketname exec_path) := by
  have h0 : Kind.spawnOp ∈ K := hK (by simp)
  have h1 : Kind.socketOp ∈ K := hK (by simp)
  have h2 : Kind.cwdOp ∈ K := hK (by simp)
  have h3 : Kind.stderrOp ∈ K := hK (by simp)
  have h4 : Kind.exitOp ∈ K := hK (by simp)
  unfold start_server
  repeat (first
    | exact emits_pure _ _
    | exact emits_sys _ h0
    | exact emits_sys _ h1
    | exact emits_sys _ h2
    | exact emits_exec _ h0
    | exact emits_NO_EINTR _ h1
    | exact emits_failwith_perror _ _ h3 h4
    | exact make_daemon_emits _ _ hK
    | apply emits_bind
    | intro _
    | split
    | dsimp only)

theorem connect_and_serve_emits {K : List Kind} (w : World) (socket_path exec_path : List Nat)
    (hK : [Kind.spawnOp, Kind.socketOp, Kind.cwdOp, Kind.stderrOp, Kind.exitOp,
      Kind.abortOp] ⊆ K) :
    Emits K (connect_and_serve w socket_path exec_path) := by
  have h5 : Kind.abortOp ∈ K := hK (by simp)
  have hK1 : [Kind.spawnOp, Kind.socketOp, Kind.cwdOp, Kind.stderrOp, Kind.exitOp] ⊆ K :=
    fun k hk => hK (by simp at hk ⊢; tauto)
  have hK2 : [Kind.socketOp, Kind.cwdOp, Kind.stderrOp, Kind.exitOp] ⊆ K :=
    fun k hk => hK (by simp at hk ⊢; tauto)
  unfold connect_and_serve
  repeat (first
    | exact emits_pure _ _
    | exact emits_abort h5
    | exact connect_socket_emits _ _ _ hK2
    | exact start_server_emits _ _ _ hK1
    | apply emits_bind
    | intro _
    | split
    | dsimp only)

theorem compute_merlinpath_emits {K : List Kind} (w : World) (argv0 : Option (List Nat))
    (hK : [Kind.failwithOp, Kind.stderrOp, Kind.exitOp] ⊆ K) :
    Emits K (compute_merlinpath w argv0) := by
  have h0 : Kind.failwithOp ∈ K := hK (by simp)
  have h3 : Kind.stderrOp ∈ K := hK (by simp)
  have h4 : Kind.exitOp ∈ K := hK (by simp)
  refine ⟨fun p => ?_⟩
  unfold compute_merlinpath
  dsimp only
  split
  · exact (emits_failwith w _ h0 h3 h4).out _
  · split
    · exact (emits_failwith w _ h0 h3 h4).out _
    · exact ⟨[], by simp [Run.proc], by simp⟩

theorem compute_socketname_emits {K : List Kind} (w : World)
    (hK : [Kind.stderrOp, Kind.exitOp] ⊆ K) : Emits K (compute_socketname w) := by
  have h3 : Kind.stderrOp ∈ K := hK (by simp)
  have h4 : Kind.exitOp ∈ K := hK (by simp)
  refine ⟨fun p => ?_⟩
  unfold compute_socketname
  split
  · exact (emits_failwith_perror w _ h3 h4).out p
  · exact ⟨[], by simp [Run.proc], by simp⟩

theorem ipc_send_loop_emits {K : List Kind} (w : World) (fd : Int) (buffer : List Nat)
    (len : Nat) (hK : [Kind.sendOp, Kind.stderrOp, Kind.exitOp] ⊆ K) :
    ∀ (fuel : Nat) (sent : Int), Emits K (ipc_send_loop w fd buffer len fuel sent) := by
  have h1 : Kind.sendOp ∈ K := hK (by simp)
  have h3 : Kind.stderrOp ∈ K := hK (by simp)
  have h4 : Kind.exitOp ∈ K := hK (by simp)
  intro fuel
  induction fuel with
  | zero => intro sent; exact ⟨fun p => ⟨[], by simp [ipc_send_loop, Run.proc], by simp⟩⟩
  | succ fuel ih =>
    intro sent
    unfold ipc_send_loop
    repeat (first
      | exact emits_pure _ _
      | exact ih _
      | exact emits_NO_EINTR _ h1
      | exact emits_failwith_perror _ _ h3 h4
      | apply emits_bind
      | intro _
      | split
      | dsimp only)

theorem ipc_send_emits {K : List Kind} (w : World) (fd : Int) (buffer : List Nat)
    (len : Nat) (fds : List Int) (hK : [Kind.sendOp, Kind.stderrOp, Kind.exitOp] ⊆ K) :
    Emits K (ipc_send w fd buffer len fds) := by
  have h1 : Kind.sendOp ∈ K := hK (by simp)
  have h3 : Kind.stderrOp ∈ K := hK (by simp)
  have h4 : Kind.exitOp ∈ K := hK (by simp)
  unfold ipc_send
  repeat (first
    | exact emits_pure _ _
    | exact emits_NO_EINTR _ h1
    | exact emits_failwith_perror _ _ h3 h4
    | exact emits_ofState (fun q => ipc_send_loop_emits w fd buffer len hK _ _)
    | apply emits_bind
    | intro _
    | split
    | dsimp only)

theorem abnormal_termination_emits {α : Type} {K : List Kind} (w : World)
    (argv : List (List Nat))
    (hK : [Kind.stdoutOp, Kind.failwithOp, Kind.stderrOp, Kind.exitOp] ⊆ K) :
    Emits K (abnormal_termination w argv : M α) := by
  have h0 : Kind.failwithOp ∈ K := hK (by simp)
  have h1 : Kind.stdoutOp ∈ K := hK (by simp)
  have h3 : Kind.stderrOp ∈ K := hK (by simp)
  have h4 : Kind.exitOp ∈ K := hK (by simp)
  unfold abnormal_termination
  exact emits_bind (emits_emit _ (by simpa [Event.kind] using h1))
    (fun _ => emits_failwith w _ h0 h3 h4)

theorem foldl_flag (f : Nat → Bool) : ∀ (l : List Nat) (b : Bool),
    l.foldl (fun sexp i => if f i = true then true else sexp) b = (b || l.any f) := by
  intro l
  induction l with
  | nil => intro b; simp
  | cons x xs ih =>
    intro b
    simp only [List.foldl_cons, ih, List.any_cons]
    cases b <;> cases f x <;> simp

theorem protocol_sexp_iff (argv : List (List Nat)) :
    protocol_sexp argv = true
      ↔ ∃ i, 1 ≤ i ∧ i + 1 < argv.length
          ∧ argv.getD i [] = cstr "-protocol" ∧ argv.getD (i + 1) [] = cstr "sexp" := by
  unfold protocol_sexp
  have h := foldl_flag
    (fun i => decide (argv.getD i [] = cstr "-protocol" ∧ argv.getD (i + 1) [] = cstr "sexp"))
    (List.range' 1 (argv.length - 1 - 1)) false
  simp only [decide_eq_true_eq] at h
  rw [h]
  simp only [Bool.false_or, List.any_eq_true, List.mem_range'_1, decide_eq_true_eq]
  constructor
  · rintro ⟨i, ⟨h1, h2⟩, h3⟩
    exact ⟨i, h1, by omega, h3⟩
  · rintro ⟨i, h1, h2, h3⟩
    exact ⟨i, ⟨h1, by omega⟩, h3⟩

theorem getD_of_getElem? (argv : List (List Nat)) (i : Nat) (x : List Nat)
    (h : argv[i]? = some x) : argv.getD i [] = x := by
  rw [List.getD_eq_getElem?_getD, h]; rfl

theorem getElem?_of_getD (argv : List (List Nat)) (i : Nat) (hi : i < argv.length) :
    argv[i]? = some (argv.getD i []) := by
  rw [List.getD_eq_getElem?_getD, List.getElem?_eq_getElem hi]; rfl

/-- C9. In a client run (argv[1] is "server") abnormal_termination selects the S-expression
record exactly when the forwarded arguments argv[2..] contain "-protocol" immediately followed
by "sexp"; otherwise it selects the JSON object. It prints the selected record, whose class is
"failure", value "abnormal termination" and notification list empty, then the failure message
and the paths on stderr, and exits with EXIT_FAILURE = 1. -/
theorem abnormal_termination_format (w : World) (argv : List (List Nat)) (p : Proc)
    (hclient : server_marker argv = true) :
    (protocol_sexp argv = true
      ↔ ∃ k, (argv.drop 2)[k]? = some (cstr "-protocol")
          ∧ (argv.drop 2)[k + 1]? = some (cstr "sexp"))
    ∧ (abnormal_termination w argv : M Unit) p
      = .halt { p with trace := p.trace ++
          [.puts (if protocol_sexp argv
             then "((assoc) (class . \"failure\") (value . \"abnormal termination\") (notifications))"
             else "\x7b\"class\": \"failure\", \"value\": \"abnormal termination\", \"notifications\": [] \x7d"),
           .eprintln "abnormal termination",
           .dumpinfo p.merlin_path (path_socketdir w) p.socketname,
           .exit 1] } := by
  constructor
  · rw [protocol_sexp_iff]
    simp only [server_marker, Bool.and_eq_true, decide_eq_true_eq] at hclient
    obtain ⟨hlen, h1⟩ := hclient
    constructor
    · rintro ⟨i, hi1, hi2, h3, h4⟩
      have hne : i ≠ 1 := by
        rintro rfl
        rw [h1] at h3
        exact absurd h3 (by decide)
      refine ⟨i - 2, ?_, ?_⟩
      · rw [List.getElem?_drop, ← h3]
        have : 2 + (i - 2) = i := by omega
        rw [this]
        exact getElem?_of_getD argv i (by omega)
      · rw [List.getElem?_drop, ← h4]
        have : 2 + (i - 2 + 1) = i + 1 := by omega
        rw [this]
        exact getElem?_of_getD argv (i + 1) hi2
    · rintro ⟨k, h3, h4⟩
      rw [List.getElem?_drop] at h3 h4
      have hk : 2 + (k + 1) < argv.length := by
        by_contra hc
        rw [List.getElem?_eq_none (by omega)] at h4
        cases h4
      refine ⟨2 + k, by omega, by omega, getD_of_getElem? argv _ _ h3, ?_⟩
      exact getD_of_getElem? argv _ _ h4
  · simp [abnormal_termination, failwith, dumpinfo, emit, exit, bind_apply]

theorem abnormal_termination_format_witness :
    (protocol_sexp [cstr "ocamlmerlin", cstr "server", cstr "-protocol", cstr "sexp"] = true
      ↔ ∃ k, ([cstr "ocamlmerlin", cstr "server", cstr "-protocol", cstr "sexp"].drop 2)[k]?
            = some (cstr "-protocol")
          ∧ ([cstr "ocamlmerlin", cstr "server", cstr "-protocol", cstr "sexp"].drop 2)[k + 1]?
            = some (cstr "sexp"))
    ∧ (abnormal_termination sampleWorld
        [cstr "ocamlmerlin", cstr "server", cstr "-protocol", cstr "sexp"] : M Unit) (start [])
      = .halt { start [] with trace := (start []).trace ++
          [.puts (if protocol_sexp
                [cstr "ocamlmerlin", cstr "server", cstr "-protocol", cstr "sexp"]
             then "((assoc) (class . \"failure\") (value . \"abnormal termination\") (notifications))"
             else "\x7b\"class\": \"failure\", \"value\": \"abnormal termination\", \"notifications\": [] \x7d"),
           .eprintln "abnormal termination",
           .dumpinfo (start []).merlin_path (path_socketdir sampleWorld) (start []).socketname,
           .exit 1] } :=
  abnormal_termination_format sampleWorld
    [cstr "ocamlmerlin", cstr "server", cstr "-protocol", cstr "sexp"] (start []) (by decide)

theorem failwith_perror_apply {α : Type} (w : World) (msg : String) (p : Proc) :
    (failwith_perror w msg : M α) p
      = .halt { p with trace := p.trace ++
          [.perror msg, .dumpinfo p.merlin_path (path_socketdir w) p.socketname, .exit 1] } := by
  simp [failwith_perror, dumpinfo, emit, exit, bind_apply]

theorem failwith_apply {α : Type} (w : World) (msg : String) (p : Proc) :
    (failwith w msg : M α) p
      = .halt { p with trace := p.trace ++
          [.eprintln msg, .dumpinfo p.merlin_path (path_socketdir w) p.socketname, .exit 1] } := by
  simp [failwith, dumpinfo, emit, exit, bind_apply]

theorem NO_EINTR_loop_cases (c : Call) : ∀ (script : List SysRes) (p : Proc),
    (∃ retries, (∀ x ∈ retries, x.ret = -1 ∧ x.eintr = true) ∧ script = retries
        ∧ NO_EINTR_loop c script p
          = .blocked
              { p with
                script := []
                trace := p.trace ++ retries.map (Event.sys c) ++ [.pending c] })
    ∨ (∃ retries r rest, (∀ x ∈ retries, x.ret = -1 ∧ x.eintr = true)
        ∧ ¬ (r.ret = -1 ∧ r.eintr = true) ∧ script = retries ++ r :: rest
        ∧ NO_EINTR_loop c script p
          = .ret r
              { p with
                script := rest
                trace := p.trace ++ retries.map (Event.sys c) ++ [.sys c r] }) := by
  intro script
  induction script with
  | nil => intro p; exact Or.inl ⟨[], by simp, rfl, by simp [NO_EINTR_loop]⟩
  | cons r rs ih =>
    intro p
    by_cases h : r.ret = -1 ∧ r.eintr = true
    · rcases ih { p with script := rs, trace := p.trace ++ [.sys c r] } with
        ⟨retries, h1, h2, h3⟩ | ⟨retries, r', rest, h1, h2, h3, h4⟩
      · refine Or.inl ⟨r :: retries, ?_, by rw [h2], ?_⟩
        · intro x hx
          rcases List.mem_cons.1 hx with hx | hx
          · subst hx; exact h
          · exact h1 x hx
        · simp only [NO_EINTR_loop, h, and_self, if_true, h3]
          simp
      · refine Or.inr ⟨r :: retries, r', rest, ?_, h2, by rw [h3]; rfl, ?_⟩
        · intro x hx
          rcases List.mem_cons.1 hx with hx | hx
          · subst hx; exact h
          · exact h1 x hx
        · simp only [NO_EINTR_loop, h, and_self, if_true, h4]
          simp
    · exact Or.inr ⟨[], r, rs, by simp, h, rfl, by simp [NO_EINTR_loop, h]⟩

theorem ipc_send_loop_succ (w : World) (fd : Int) (buffer : List Nat) (len fuel : Nat)
    (sent : Int) (p : Proc) :
    ipc_send_loop w fd buffer len (fuel + 1) sent p
      = if size_t_of sent < len then
          match NO_EINTR (.send fd (iov buffer sent.toNat (size_t_of (len - sent)))) p with
          | .ret r q =>
            if r.ret = -1 then failwith_perror w "sent" q
            else ipc_send_loop w fd buffer len fuel (sent + r.ret) q
          | .halt q => .halt q
          | .blocked q => .blocked q
        else .ret () p := by
  rw [ipc_send_loop]
  split
  · simp only [bind_apply]
    cases NO_EINTR (.send fd (iov buffer sent.toNat (size_t_of (len - sent)))) p with
    | ret r q =>
      simp only
      split
      · simp [bind_apply, failwith_perror_apply]
      · simp [bind_apply, pure_apply]
    | halt q => rfl
    | blocked q => rfl
  · rfl

theorem ipc_send_apply (w : World) (fd : Int) (buffer : List Nat) (len : Nat)
    (fds : List Int) (p : Proc) :
    ipc_send w fd buffer len fds p
      = match NO_EINTR (.sendmsg fd (iov buffer 0 len) fds) p with
        | .ret r q =>
          if r.ret = -1 then failwith_perror w "sendmsg" q
          else ipc_send_loop w fd buffer len (q.script.length + 1) r.ret q
        | .halt q => .halt q
        | .blocked q => .blocked q := by
  unfold ipc_send
  simp only [bind_apply]
  cases NO_EINTR (.sendmsg fd (iov buffer 0 len) fds) p with
  | ret r q =>
    simp only
    split
    · simp [bind_apply, failwith_perror_apply]
    · simp [bind_apply, pure_apply]
  | halt q => rfl
  | blocked q => rfl

theorem size_t_of_natCast (n : Nat) (h : n < 2 ^ 64) : size_t_of (n : Int) = n := by
  unfold size_t_of
  omega

theorem size_t_of_sub (len sent : Nat) (h1 : sent ≤ len) (h2 : len < 2 ^ 64) :
    size_t_of ((len : Int) - (sent : Int)) = len - sent := by
  unfold size_t_of
  omega

theorem iov_length (buffer : List Nat) (off n : Nat) (h : off + n ≤ buffer.length) :
    (iov buffer off n).length = n := by
  simp [iov]
  omega

theorem mem_drop_of_append (t A l : List Event) (e : Event) (h : l = t ++ A) (he : e ∈ A) :
    e ∈ l.drop t.length := by
  rw [h, List.drop_left]
  exact he

theorem ipc_send_loop_ok (w : World) (fd : Int) (buffer : List Nat) (len : Nat)
    (hbuf : len ≤ buffer.length) (hlen : len < 2 ^ 63) :
    ∀ (fuel sent : Nat) (p : Proc), sent ≤ len → len - sent < fuel →
      len - sent ≤ p.script.length →
      (∀ c r, Event.sys c r
          ∈ (ipc_send_loop w fd buffer len fuel (sent : Int) p).proc.trace.drop p.trace.length →
        1 ≤ r.ret ∧ r.ret ≤ (c.offered : Int)) →
      ∃ rs rest, p.script = rs ++ rest
        ∧ ipc_send_loop w fd buffer len fuel (sent : Int) p
          = .ret () { p with script := rest, trace := p.trace ++ sendsFrom fd buffer len sent rs }
        ∧ (sent : Int) + (rs.map SysRes.ret).sum = len := by
  intro fuel
  induction fuel with
  | zero => intro sent p _ h; omega
  | succ fuel ih =>
    intro sent p hsent hfuel hscript H
    rw [ipc_send_loop_succ] at H ⊢
    rw [size_t_of_natCast sent (by omega)] at H ⊢
    by_cases hlt : sent < len
    · simp only [hlt, if_true, Int.toNat_ofNat, size_t_of_sub len sent hsent (by omega)] at H ⊢
      generalize hc : Call.send fd (iov buffer sent (len - sent)) = c at H ⊢
      have hoff : c.offered = len - sent := by
        rw [← hc]; exact iov_length buffer sent (len - sent) (by omega)
      rcases NO_EINTR_loop_cases c p.script p with
        ⟨retries, h1, h2, h3⟩ | ⟨retries, r, rest, h1, h2, h3, h4⟩
      · exfalso
        have hne : retries ≠ [] := by
          intro h; rw [← h2] at h; rw [h] at hscript; simp at hscript; omega
        obtain ⟨x, xs, hx⟩ := List.exists_cons_of_ne_nil hne
        have hxr := (h1 x (by rw [hx]; simp)).1
        have hN : NO_EINTR c p = NO_EINTR_loop c p.script p := rfl
        rw [hN, h3] at H
        have := (H c x (mem_drop_of_append p.trace _ _ _ (by simp [Run.proc]; rfl)
          (by rw [hx]; simp))).1
        omega
      · have hN : NO_EINTR c p = NO_EINTR_loop c p.script p := rfl
        rw [hN, h4] at H ⊢
        simp only at H ⊢
        obtain ⟨more, hmore, _⟩ :=
          (emits_mono (ipc_send_loop_emits w fd buffer len (K := [Kind.sendOp, Kind.stderrOp,
            Kind.exitOp]) (fun _ h => h) fuel (↑sent + r.ret)) (fun _ h => h)).out
            { p with script := rest, trace := p.trace ++ retries.map (Event.sys c) ++ [.sys c r] }
        have htail : ∀ e, e ∈ retries.map (Event.sys c) ++ [Event.sys c r] →
            e ∈ (if r.ret = -1 then
                (failwith_perror w "sent" : M Unit)
                  { p with script := rest,
                           trace := p.trace ++ retries.map (Event.sys c) ++ [.sys c r] }
              else ipc_send_loop w fd buffer len fuel (↑sent + r.ret)
                  { p with script := rest,
                           trace := p.trace ++ retries.map (Event.sys c) ++ [.sys c r] }
              ).proc.trace.drop p.trace.length := by
          intro e he
          split
          · rw [failwith_perror_apply]
            simp only [Run.proc, List.append_assoc, List.drop_left]
            simp only [List.mem_append] at he ⊢
            rcases he with he | he
            · exact Or.inl he
            · exact Or.inr (Or.inl he)
          · rw [hmore]
            simp only [List.append_assoc, List.drop_left]
            simp only [List.mem_append] at he ⊢
            rcases he with he | he
            · exact Or.inl he
            · exact Or.inr (Or.inl he)
        have hretries : retries = [] := by
          by_contra hne
          obtain ⟨x, xs, hx⟩ := List.exists_cons_of_ne_nil hne
          have hxr := (h1 x (by rw [hx]; simp)).1
          have := (H c x (htail _ (by rw [hx]; simp))).1
          omega
        subst hretries
        simp only [List.map_nil, List.append_nil, List.nil_append] at H htail hmore h3 ⊢
        obtain ⟨hr1, hr2⟩ := H c r (htail _ (by simp))
        rw [hoff] at hr2
        have hrne : ¬ r.ret = -1 := by omega
        simp only [hrne, if_false] at H ⊢
        have hcast : (↑sent + r.ret : Int) = ((sent + r.ret.toNat : Nat) : Int) := by omega
        rw [hcast] at H ⊢
        obtain ⟨rs, rest', e1, e2, e3⟩ := ih (sent + r.ret.toNat)
          { p with script := rest, trace := p.trace ++ [.sys c r] }
          (by omega) (by omega)
          (by
            have := congrArg List.length h3
            simp at this ⊢
            omega)
          (by
            intro c' r' hmem
            apply H c' r'
            simp only [List.length_append, List.length_singleton] at hmem
            rw [← List.drop_drop] at hmem
            exact List.mem_of_mem_drop hmem)
        have e1' : rest = rs ++ rest' := e1
        refine ⟨r :: rs, rest', by rw [h3, e1']; rfl, ?_, ?_⟩
        · rw [e2]
          simp [sendsFrom, hc]
        · simp only [List.map_cons, List.sum_cons]
          omega
    · have : sent = len := by omega
      subst this
      refine ⟨[], p.script, rfl, ?_, by simp⟩
      simp [sendsFrom]

theorem fatalStops_nil (w : World) (p : Proc) : FatalStops w p [] := by
  intro pre c r post h; simp at h

theorem fatalStops_cons (w : World) (p : Proc) (e : Event) (es : List Event)
    (he : ∀ c r, e = Event.sys c r → ¬ (r.ret = -1 ∧ r.eintr = false))
    (h : FatalStops w p es) : FatalStops w p (e :: es) := by
  intro pre c r post heq h1 h2
  cases pre with
  | nil =>
    simp only [List.nil_append, List.cons.injEq] at heq
    exact absurd ⟨h1, h2⟩ (he c r heq.1)
  | cons x xs =>
    simp only [List.cons_append, List.cons.injEq] at heq
    exact h xs c r post heq.2 h1 h2

theorem fatalStops_retries (w : World) (p : Proc) (c : Call) (es : List Event) :
    ∀ (retries : List SysRes), (∀ x ∈ retries, x.ret = -1 ∧ x.eintr = true) →
    FatalStops w p es → FatalStops w p (retries.map (Event.sys c) ++ es) := by
  intro retries
  induction retries with
  | nil => intro _ h; simpa using h
  | cons x xs ih =>
    intro hx h
    simp only [List.map_cons, List.cons_append]
    apply fatalStops_cons
    · intro c' r' heq
      simp only [Event.sys.injEq] at heq
      have := (hx x (by simp)).2
      rw [heq.2] at this
      simp [this]
    · exact ih (fun y hy => hx y (by simp [hy])) h

theorem fatalStops_report (w : World) (p : Proc) (c : Call) (r : SysRes) (msg : String) :
    FatalStops w p [.sys c r, .perror msg,
      .dumpinfo p.merlin_path (path_socketdir w) p.socketname, .exit 1] := by
  intro pre c' r' post heq h1 h2
  cases pre with
  | nil =>
    simp only [List.nil_append, List.cons.injEq] at heq
    exact ⟨msg, heq.2.symm⟩
  | cons x xs =>
    exfalso
    simp only [List.cons_append, List.cons.injEq] at heq
    have hmem : Event.sys c' r' ∈ [Event.perror msg,
        Event.dumpinfo p.merlin_path (path_socketdir w) p.socketname, Event.exit 1] := by
      rw [heq.2]; simp
    simp at hmem

theorem ipc_send_loop_fatal (w : World) (fd : Int) (buffer : List Nat) (len : Nat) :
    ∀ (fuel : Nat) (sent : Int) (p : Proc),
      ∃ new, (ipc_send_loop w fd buffer len fuel sent p).proc.trace = p.trace ++ new
        ∧ FatalStops w p new := by
  intro fuel
  induction fuel with
  | zero =>
    intro sent p
    exact ⟨[], by simp [ipc_send_loop, Run.proc], fatalStops_nil w p⟩
  | succ fuel ih =>
    intro sent p
    rw [ipc_send_loop_succ]
    split
    · generalize Call.send fd (iov buffer sent.toNat (size_t_of (↑len - sent))) = c
      have hN : NO_EINTR c p = NO_EINTR_loop c p.script p := rfl
      rcases NO_EINTR_loop_cases c p.script p with
        ⟨retries, h1, _, h3⟩ | ⟨retries, r, rest, h1, h2, _, h4⟩
      · rw [hN, h3]
        refine ⟨retries.map (Event.sys c) ++ [.pending c], by simp [Run.proc], ?_⟩
        exact fatalStops_retries w p c _ retries h1
          (fatalStops_cons w p _ _ (by intro c r h; cases h) (fatalStops_nil w p))
      · rw [hN, h4]
        simp only
        split
        · rw [failwith_perror_apply]
          refine ⟨retries.map (Event.sys c) ++ [.sys c r, .perror "sent",
            .dumpinfo p.merlin_path (path_socketdir w) p.socketname, .exit 1],
            by simp [Run.proc], ?_⟩
          exact fatalStops_retries w p c _ retries h1 (fatalStops_report w p c r "sent")
        · rename_i hr
          obtain ⟨new, hnew, hf⟩ := ih (sent + r.ret)
            { p with script := rest, trace := p.trace ++ retries.map (Event.sys c) ++ [.sys c r] }
          refine ⟨retries.map (Event.sys c) ++ Event.sys c r :: new, by rw [hnew]; simp, ?_⟩
          apply fatalStops_retries w p c _ retries h1
          apply fatalStops_cons w p
          · intro c' r' heq
            simp only [Event.sys.injEq] at heq
            rw [← heq.2]
            intro hc
            exact hr hc.1
          · exact hf
    · exact ⟨[], by simp [Run.proc], fatalStops_nil w p⟩

theorem ipc_send_fatal (w : World) (fd : Int) (buffer : List Nat) (len : Nat)
    (fds : List Int) (p : Proc) :
    FatalStops w p (newEvents (ipc_send w fd buffer len fds) p) := by
  unfold newEvents
  rw [ipc_send_apply]
  generalize Call.sendmsg fd (iov buffer 0 len) fds = c
  have hN : NO_EINTR c p = NO_EINTR_loop c p.script p := rfl
  rcases NO_EINTR_loop_cases c p.script p with
    ⟨retries, h1, _, h3⟩ | ⟨retries, r, rest, h1, h2, _, h4⟩
  · rw [hN, h3]
    simp only [Run.proc, List.append_assoc, List.drop_left]
    exact fatalStops_retries w p c _ retries h1
      (fatalStops_cons w p _ _ (by intro c r h; cases h) (fatalStops_nil w p))
  · rw [hN, h4]
    simp only
    split
    · rw [failwith_perror_apply]
      simp only [Run.proc, List.append_assoc, List.drop_left]
      exact fatalStops_retries w p c _ retries h1 (fatalStops_report w p c r "sendmsg")
    · rename_i hr
      obtain ⟨new, hnew, hf⟩ := ipc_send_loop_fatal w fd buffer len (rest.length + 1) r.ret
        { p with script := rest, trace := p.trace ++ retries.map (Event.sys c) ++ [.sys c r] }
      simp only at hnew ⊢
      rw [hnew]
      simp only [List.append_assoc, List.drop_left]
      apply fatalStops_retries w p c _ retries h1
      apply fatalStops_cons w p
      · intro c' r' heq
        simp only [Event.sys.injEq] at heq
        rw [← heq.2]
        intro hc
        exact hr hc.1
      · exact hf

theorem ipc_send_ok (w : World) (fd : Int) (buffer : List Nat) (len : Nat) (fds : List Int)
    (p : Proc) (hbuf : len ≤ buffer.length) (hlen : len < 2 ^ 63)
    (hscript : len < p.script.length)
    (H : ∀ c r, Event.sys c r ∈ newEvents (ipc_send w fd buffer len fds) p →
      1 ≤ r.ret ∧ r.ret ≤ (c.offered : Int)) :
    ∃ r0 rs rest, p.script = r0 :: rs ++ rest
      ∧ ipc_send w fd buffer len fds p
        = .ret () { p with
            script := rest
            trace := p.trace ++ .sys (.sendmsg fd (buffer.take len) fds) r0
              :: sendsFrom fd buffer len r0.ret.toNat rs }
      ∧ r0.ret + (rs.map SysRes.ret).sum = len := by
  unfold newEvents at H
  rw [ipc_send_apply] at H ⊢
  have hiov : iov buffer 0 len = buffer.take len := by simp [iov]
  rw [hiov] at H ⊢
  generalize hc : Call.sendmsg fd (buffer.take len) fds = c at H ⊢
  have hoff : c.offered = len := by
    rw [← hc]; simp [Call.offered]; omega
  have hN : NO_EINTR c p = NO_EINTR_loop c p.script p := rfl
  rcases NO_EINTR_loop_cases c p.script p with
    ⟨retries, h1, h2, h3⟩ | ⟨retries, r, rest, h1, h2, h3, h4⟩
  · exfalso
    have hne : retries ≠ [] := by
      intro h; rw [← h2] at h; rw [h] at hscript; simp at hscript
    obtain ⟨x, xs, hx⟩ := List.exists_cons_of_ne_nil hne
    have hxr := (h1 x (by rw [hx]; simp)).1
    rw [hN, h3] at H
    have := (H c x (mem_drop_of_append p.trace _ _ _ (by simp [Run.proc]; rfl)
      (by rw [hx]; simp))).1
    omega
  · rw [hN, h4] at H ⊢
    simp only at H ⊢
    obtain ⟨more, hmore, _⟩ :=
      (ipc_send_loop_emits w fd buffer len (K := [Kind.sendOp, Kind.stderrOp, Kind.exitOp])
        (fun _ h => h) (rest.length + 1) r.ret).out
        { p with script := rest, trace := p.trace ++ retries.map (Event.sys c) ++ [.sys c r] }
    have htail : ∀ e, e ∈ retries.map (Event.sys c) ++ [Event.sys c r] →
        e ∈ (if r.ret = -1 then
            (failwith_perror w "sendmsg" : M Unit)
              { p with script := rest,
                       trace := p.trace ++ retries.map (Event.sys c) ++ [.sys c r] }
          else ipc_send_loop w fd buffer len (rest.length + 1) r.ret
              { p with script := rest,
                       trace := p.trace ++ retries.map (Event.sys c) ++ [.sys c r] }
          ).proc.trace.drop p.trace.length := by
      intro e he
      split
      · rw [failwith_perror_apply]
        simp only [Run.proc, List.append_assoc, List.drop_left]
        simp only [List.mem_append] at he ⊢
        rcases he with he | he
        · exact Or.inl he
        · exact Or.inr (Or.inl he)
      · rw [hmore]
        simp only [List.append_assoc, List.drop_left]
        simp only [List.mem_append] at he ⊢
        rcases he with he | he
        · exact Or.inl he
        · exact Or.inr (Or.inl he)
    have hretries : retries = [] := by
      by_contra hne
      obtain ⟨x, xs, hx⟩ := List.exists_cons_of_ne_nil hne
      have hxr := (h1 x (by rw [hx]; simp)).1
      have := (H c x (htail _ (by rw [hx]; simp))).1
      omega
    subst hretries
    simp only [List.map_nil, List.append_nil, List.nil_append] at H htail hmore h3 ⊢
    obtain ⟨hr1, hr2⟩ := H c r (htail _ (by simp))
    rw [hoff] at hr2
    have hrne : ¬ r.ret = -1 := by omega
    simp only [hrne, if_false] at H ⊢
    have hcast : r.ret = ((r.ret.toNat : Nat) : Int) := by omega
    rw [hcast] at H ⊢
    have hrest : rest.length + 1 = p.script.length := by rw [h3]; simp
    obtain ⟨rs, rest', e1, e2, e3⟩ := ipc_send_loop_ok w fd buffer len hbuf hlen
      (rest.length + 1) r.ret.toNat
      { p with script := rest, trace := p.trace ++ [.sys c r] }
      (by omega) (by omega) (by simp only; omega)
      (by
        intro c' r' hmem
        apply H c' r'
        simp only [List.length_append, List.length_singleton] at hmem
        rw [← List.drop_drop] at hmem
        exact List.mem_of_mem_drop hmem)
    have e1' : rest = rs ++ rest' := e1
    refine ⟨r, rs, rest', by rw [h3, e1']; rfl, ?_, ?_⟩
    · rw [e2]
      simp
    · rw [hcast]; exact e3

/-- C8. ipc_send delegates the descriptors exactly once and sends the whole payload in order.
When the buffer holds the len payload bytes, the script holds more than len results and every
transmission of the run reports between 1 and the number of bytes it was given, ipc_send
returns; its first event is sendmsg on the whole payload with the descriptors fds, every later
event is a send, carrying no descriptor, of the bytes from the offset equal to the total
reported so far, and the reported counts add up to len. And in every run, a transmission
that reports -1 with an errno other than EINTR is followed by the failure report only: it is
not retried. -/
theorem ipc_send_delegates_once (w : World) (fd : Int) (buffer : List Nat) (len : Nat)
    (fds : List Int) (p : Proc) (hbuf : len ≤ buffer.length) (hlen : len < 2 ^ 63) :
    (len < p.script.length →
      (∀ c r, Event.sys c r ∈ newEvents (ipc_send w fd buffer len fds) p →
        1 ≤ r.ret ∧ r.ret ≤ (c.offered : Int)) →
      ∃ r0 rs rest, p.script = r0 :: rs ++ rest
        ∧ ipc_send w fd buffer len fds p
          = .ret () { p with
              script := rest
              trace := p.trace ++ .sys (.sendmsg fd (buffer.take len) fds) r0
                :: sendsFrom fd buffer len r0.ret.toNat rs }
        ∧ r0.ret + (rs.map SysRes.ret).sum = len)
    ∧ FatalStops w p (newEvents (ipc_send w fd buffer len fds) p) :=
  ⟨ipc_send_ok w fd buffer len fds p hbuf hlen, ipc_send_fatal w fd buffer len fds p⟩

theorem ipc_send_delegates_once_witness :
    (∃ r0 rs rest,
        (start [okRes 2, okRes 3, okRes 0, okRes 0, okRes 0, okRes 0]).script = r0 :: rs ++ rest
        ∧ ipc_send sampleWorld 3 [10, 20, 30, 40, 50] 5 [0, 1, 2]
            (start [okRes 2, okRes 3, okRes 0, okRes 0, okRes 0, okRes 0])
          = .ret () { start [okRes 2, okRes 3, okRes 0, okRes 0, okRes 0, okRes 0] with
              script := rest
              trace := (start [okRes 2, okRes 3, okRes 0, okRes 0, okRes 0, okRes 0]).trace
                ++ .sys (.sendmsg 3 ([10, 20, 30, 40, 50].take 5) [0, 1, 2]) r0
                :: sendsFrom 3 [10, 20, 30, 40, 50] 5 r0.ret.toNat rs }
        ∧ r0.ret + (rs.map SysRes.ret).sum = (5 : Nat))
    ∧ FatalStops sampleWorld (start [okRes 2, okRes 3, okRes 0, okRes 0, okRes 0, okRes 0])
        (newEvents (ipc_send sampleWorld 3 [10, 20, 30, 40, 50] 5 [0, 1, 2])
          (start [okRes 2, okRes 3, okRes 0, okRes 0, okRes 0, okRes 0])) :=
  ⟨(ipc_send_delegates_once sampleWorld 3 [10, 20, 30, 40, 50] 5 [0, 1, 2]
      (start [okRes 2, okRes 3, okRes 0, okRes 0, okRes 0, okRes 0])
      (by decide) (by decide)).1 (by decide)
      (by
        intro c r h
        have hev : newEvents (ipc_send sampleWorld 3 [10, 20, 30, 40, 50] 5 [0, 1, 2])
            (start [okRes 2, okRes 3, okRes 0, okRes 0, okRes 0, okRes 0])
            = [.sys (.sendmsg 3 [10, 20, 30, 40, 50] [0, 1, 2]) (okRes 2),
               .sys (.send 3 [30, 40, 50]) (okRes 3)] := by decide
        rw [hev] at h
        simp only [List.mem_cons, Event.sys.injEq, List.mem_singleton, List.not_mem_nil,
          or_false] at h
        rcases h with ⟨rfl, rfl⟩ | ⟨rfl, rfl⟩ <;> decide),
   (ipc_send_delegates_once sampleWorld 3 [10, 20, 30, 40, 50] 5 [0, 1, 2]
      (start [okRes 2, okRes 3, okRes 0, okRes 0, okRes 0, okRes 0])
      (by decide) (by decide)).2⟩

theorem main_client (w : World) (argv : List (List Nat)) (hm : server_marker argv = true) :
    main w argv = client_request w argv >>= client_relay w argv := by
  funext p
  simp only [main, client_request, client_connect, client_relay, hm, if_true, bind_apply]
  cases compute_merlinpath w argv.head? p with
  | halt q => rfl
  | blocked q => rfl
  | ret u p1 =>
    simp only
    cases compute_socketname w p1 with
    | halt q => rfl
    | blocked q => rfl
    | ret u p2 =>
      simp only
      cases connect_and_serve w p2.socketname p2.merlin_path p2 with
      | halt q => rfl
      | blocked q => rfl
      | ret sock p3 =>
        simp only
        cases prepare_args w.getenv argbuffer 65536 (argv.drop 2) with
        | error msg => simp only [failwith_apply]
        | ok s =>
          obtain ⟨buffer, len⟩ := s
          simp only [bind_apply]
          cases ipc_send w sock buffer len [0, 1, 2] p3 with
          | halt q => rfl
          | blocked q => rfl
          | ret u p4 => rfl

theorem main_overflow (w : World) (argv : List (List Nat)) (msg : String)
    (hm : server_marker argv = true)
    (hov : prepare_args w.getenv argbuffer 65536 (argv.drop 2) = .error msg) :
    main w argv = client_connect w argv >>= fun _ => failwith w msg := by
  funext p
  simp only [main, client_connect, hm, if_true, bind_apply, hov]
  cases compute_merlinpath w argv.head? p with
  | halt q => rfl
  | blocked q => rfl
  | ret u p1 =>
    simp only
    cases compute_socketname w p1 with
    | halt q => rfl
    | blocked q => rfl
    | ret u p2 => rfl

theorem main_exec (w : World) (argv : List (List Nat)) (hm : server_marker argv = false) :
    main w argv
      = (compute_merlinpath w argv.head? >>= fun _ =>
          (fun p => M.pure p.merlin_path p) >>= fun merlin_path =>
            exec (.execvp merlin_path (argv.set 0 (cstr "ocamlmerlin-server"))) >>= fun _ =>
              failwith_perror w "execvp(ocamlmerlin-server)") := by
  simp [main, hm]

theorem client_connect_emits {K : List Kind} (w : World) (argv : List (List Nat))
    (hK : [Kind.failwithOp, Kind.spawnOp, Kind.socketOp, Kind.cwdOp, Kind.stderrOp, Kind.exitOp,
      Kind.abortOp] ⊆ K) :
    Emits K (client_connect w argv) := by
  have hK1 : [Kind.failwithOp, Kind.stderrOp, Kind.exitOp] ⊆ K :=
    fun k hk => hK (by simp at hk ⊢; tauto)
  have hK2 : [Kind.stderrOp, Kind.exitOp] ⊆ K :=
    fun k hk => hK (by simp at hk ⊢; tauto)
  have hK3 : [Kind.spawnOp, Kind.socketOp, Kind.cwdOp, Kind.stderrOp, Kind.exitOp,
      Kind.abortOp] ⊆ K :=
    fun k hk => hK (by simp at hk ⊢; tauto)
  unfold client_connect
  exact emits_bind (compute_merlinpath_emits w _ hK1) (fun _ =>
    emits_bind (compute_socketname_emits w hK2) (fun _ =>
      emits_ofState (fun q => connect_and_serve_emits w q.socketname q.merlin_path hK3)))

theorem client_request_emits {K : List Kind} (w : World) (argv : List (List Nat))
    (hK : [Kind.failwithOp, Kind.spawnOp, Kind.socketOp, Kind.cwdOp, Kind.stderrOp, Kind.exitOp,
      Kind.abortOp, Kind.sendOp] ⊆ K) :
    Emits K (client_request w argv) := by
  have hK1 : [Kind.failwithOp, Kind.spawnOp, Kind.socketOp, Kind.cwdOp, Kind.stderrOp,
      Kind.exitOp, Kind.abortOp] ⊆ K :=
    fun k hk => hK (by simp at hk ⊢; tauto)
  have hK2 : [Kind.sendOp, Kind.stderrOp, Kind.exitOp] ⊆ K :=
    fun k hk => hK (by simp at hk ⊢; tauto)
  unfold client_request
  refine emits_bind (client_connect_emits w argv hK1) (fun sock => ?_)
  split
  · exact emits_failwith w _ (hK (by simp)) (hK (by simp)) (hK (by simp))
  · exact emits_bind (ipc_send_emits w _ _ _ _ hK2) (fun _ => emits_pure _ _)

theorem client_relay_emits {K : List Kind} (w : World) (argv : List (List Nat)) (sock : Int)
    (hK : [Kind.readOp, Kind.stdoutOp, Kind.failwithOp, Kind.stderrOp, Kind.exitOp] ⊆ K) :
    Emits K (client_relay w argv sock) := by
  have hK1 : [Kind.stdoutOp, Kind.failwithOp, Kind.stderrOp, Kind.exitOp] ⊆ K :=
    fun k hk => hK (by simp at hk ⊢; tauto)
  have h1 : Kind.readOp ∈ K := hK (by simp)
  have h4 : Kind.exitOp ∈ K := hK (by simp)
  unfold client_relay
  repeat (first
    | exact emits_pure _ _
    | exact emits_NO_EINTR _ h1
    | exact emits_exit _ h4
    | exact abnormal_termination_emits w argv hK1
    | apply emits_bind
    | intro _
    | split
    | dsimp only)

theorem main_emits_client (w : World) (argv : List (List Nat))
    (hm : server_marker argv = true) :
    Emits [Kind.failwithOp, Kind.spawnOp, Kind.socketOp, Kind.cwdOp, Kind.stderrOp, Kind.exitOp,
      Kind.abortOp, Kind.sendOp, Kind.readOp, Kind.stdoutOp] (main w argv) := by
  rw [main_client w argv hm]
  exact emits_bind (client_request_emits w argv (by intro k hk; simp at hk ⊢; tauto))
    (fun sock => client_relay_emits w argv sock (by intro k hk; simp at hk ⊢; tauto))

theorem main_emits_exec (w : World) (argv : List (List Nat))
    (hm : server_marker argv = false) :
    Emits [Kind.execvpOp, Kind.failwithOp, Kind.stderrOp, Kind.exitOp] (main w argv) := by
  rw [main_exec w argv hm]
  refine emits_bind (compute_merlinpath_emits w _ (by intro k hk; simp at hk ⊢; tauto))
    (fun _ => emits_bind ⟨fun p => ⟨[], by simp [M.pure, Run.proc], by simp⟩⟩ (fun path =>
      emits_bind (emits_exec _ (by simp [Call.kind]))
        (fun _ => emits_failwith_perror w _ (by simp) (by simp))))

theorem trace_of_emits {α : Type} {K : List Kind} {m : M α} (h : Emits K m)
    (script : List SysRes) : ∀ e ∈ (m (start script)).proc.trace, e.kind ∈ K := by
  obtain ⟨new, h1, h2⟩ := h.out (start script)
  rw [h1]
  simpa [start] using h2

theorem abnormal_termination_apply {α : Type} (w : World) (argv : List (List Nat))
    (p : Proc) :
    (abnormal_termination w argv : M α) p
      = .halt { p with trace := p.trace ++
          [.puts (if protocol_sexp argv
             then "((assoc) (class . \"failure\") (value . \"abnormal termination\") (notifications))"
             else "\x7b\"class\": \"failure\", \"value\": \"abnormal termination\", \"notifications\": [] \x7d"),
           .eprintln "abnormal termination",
           .dumpinfo p.merlin_path (path_socketdir w) p.socketname,
           .exit 1] } := by
  simp [abnormal_termination, failwith, dumpinfo, emit, exit, bind_apply]

theorem client_relay_apply (w : World) (argv : List (List Nat)) (sock : Int) (p : Proc) :
    client_relay w argv sock p
      = match NO_EINTR (.read sock 1) p with
        | .ret err q =>
          if err.ret = 1 then
            .halt { q with trace := q.trace
              ++ [.exit (char_to_int w.char_signed (err.data.headD 0))] }
          else abnormal_termination w argv q
        | .halt q => .halt q
        | .blocked q => .blocked q := by
  unfold client_relay
  simp only [bind_apply]
  cases NO_EINTR (.read sock 1) p with
  | ret r q =>
    simp only
    split
    · simp [bind_apply, exit]
    · simp [bind_apply, pure_apply]
  | halt q => rfl
  | blocked q => rfl

theorem exit_code_char (char_signed : Bool) (b : Nat) (hb : b < 256) :
    exit_code (char_to_int char_signed b) = b := by
  unfold exit_code char_to_int
  split <;> omega

theorem client_relay_read (w : World) (argv : List (List Nat)) (sock : Int) (p : Proc)
    (fd : Int) (r : SysRes) (hp : ∀ e ∈ p.trace, e.kind ≠ Kind.readOp)
    (hmem : Event.sys (.read fd 1) r ∈ (client_relay w argv sock p).proc.trace)
    (hne : ¬ (r.ret = -1 ∧ r.eintr = true)) :
    ∃ q pre, client_relay w argv sock p = .halt q
      ∧ q.trace = pre ++ .sys (.read fd 1) r ::
          (if r.ret = 1 then [.exit (char_to_int w.char_signed (r.data.headD 0))]
           else [.puts (if protocol_sexp argv
             then "((assoc) (class . \"failure\") (value . \"abnormal termination\") (notifications))"
             else "\x7b\"class\": \"failure\", \"value\": \"abnormal termination\", \"notifications\": [] \x7d"),
            .eprintln "abnormal termination",
            .dumpinfo q.merlin_path (path_socketdir w) q.socketname,
            .exit 1]) := by
  have hold : Event.sys (.read fd 1) r ∉ p.trace := fun h => hp _ h rfl
  have hretry : ∀ retries : List SysRes, (∀ x ∈ retries, x.ret = -1 ∧ x.eintr = true) →
      Event.sys (.read fd 1) r ∉ retries.map (Event.sys (.read sock 1)) := by
    intro retries h1 hin
    obtain ⟨x, hx, hxe⟩ := List.mem_map.1 hin
    simp only [Event.sys.injEq] at hxe
    rw [hxe.2] at hx
    exact hne (h1 r hx)
  rw [client_relay_apply] at hmem ⊢
  have hN : NO_EINTR (.read sock 1) p = NO_EINTR_loop (.read sock 1) p.script p := rfl
  rcases NO_EINTR_loop_cases (.read sock 1) p.script p with
    ⟨retries, h1, _, h3⟩ | ⟨retries, err, rest, h1, h2, _, h4⟩
  · exfalso
    rw [hN, h3] at hmem
    simp only [Run.proc, List.mem_append, List.mem_singleton] at hmem
    rcases hmem with (h | h) | h
    · exact hold h
    · exact hretry retries h1 h
    · cases h
  · rw [hN, h4] at hmem ⊢
    simp only at hmem ⊢
    by_cases herr : err.ret = 1
    · simp only [herr, if_true, Run.proc, List.mem_append, List.mem_singleton] at hmem ⊢
      rcases hmem with ((h | h) | h) | h
      · exact absurd h hold
      · exact absurd h (hretry retries h1)
      · simp only [Event.sys.injEq, Call.read.injEq, and_true] at h
        obtain ⟨rfl, rfl⟩ := h
        exact ⟨_, p.trace ++ retries.map (Event.sys (.read fd 1)), rfl, by simp [herr]⟩
      · cases h
    · simp only [herr, if_false, abnormal_termination_apply, Run.proc, List.mem_append,
        List.mem_singleton] at hmem ⊢
      rcases hmem with ((h | h) | h) | h
      · exact absurd h hold
      · exact absurd h (hretry retries h1)
      · simp only [Event.sys.injEq, Call.read.injEq, and_true] at h
        obtain ⟨rfl, rfl⟩ := h
        exact ⟨_, p.trace ++ retries.map (Event.sys (.read fd 1)), rfl, by simp [herr]⟩
      · simp at h

/-- C7. Exit status relay. Take any run of main in which a read of one byte from the socket
returned r and stored the byte b < 256. If the read returned 1 the run ends right after it
with exit(result), result being the char that holds b, and the exit code the parent observes
is b, with signed and with unsigned char. If the read returned anything else without being
interrupted, the run ends right after it with the abnormal-termination report and exit(1). -/
theorem exit_status_relay (w : World) (argv : List (List Nat)) (script : List SysRes)
    (fd : Int) (r : SysRes) (b : Nat) (hb : b < 256) (hdata : r.data.headD 0 = b)
    (hread : Event.sys (.read fd 1) r ∈ (main w argv (start script)).proc.trace) :
    (r.ret = 1 →
      ∃ q pre, main w argv (start script) = .halt q
        ∧ q.trace = pre ++ [.sys (.read fd 1) r, .exit (char_to_int w.char_signed b)]
        ∧ exit_code (char_to_int w.char_signed b) = b)
    ∧ (r.ret ≠ 1 → ¬ (r.ret = -1 ∧ r.eintr = true) →
      ∃ q pre, main w argv (start script) = .halt q
        ∧ q.trace = pre ++ [.sys (.read fd 1) r,
            .puts (if protocol_sexp argv
             then "((assoc) (class . \"failure\") (value . \"abnormal termination\") (notifications))"
             else "\x7b\"class\": \"failure\", \"value\": \"abnormal termination\", \"notifications\": [] \x7d"),
            .eprintln "abnormal termination",
            .dumpinfo q.merlin_path (path_socketdir w) q.socketname,
            .exit 1]) := by
  have hm : server_marker argv = true := by
    cases h : server_marker argv with
    | true => rfl
    | false =>
      have := trace_of_emits (main_emits_exec w argv h) script _ hread
      simp [Event.kind, Call.kind] at this
  rw [main_client w argv hm, bind_apply] at hread ⊢
  have hreq := trace_of_emits (client_request_emits w argv (K := [Kind.failwithOp, Kind.spawnOp,
    Kind.socketOp, Kind.cwdOp, Kind.stderrOp, Kind.exitOp, Kind.abortOp, Kind.sendOp])
    (fun _ h => h)) script
  cases hc : client_request w argv (start script) with
  | halt q =>
    exfalso
    rw [hc] at hread hreq
    have := hreq _ hread
    simp [Event.kind, Call.kind] at this
  | blocked q =>
    exfalso
    rw [hc] at hread hreq
    have := hreq _ hread
    simp [Event.kind, Call.kind] at this
  | ret sock p =>
    rw [hc] at hread hreq
    simp only at hread ⊢
    have hp : ∀ e ∈ p.trace, e.kind ≠ Kind.readOp := by
      intro e he hk
      have := hreq e he
      rw [hk] at this
      simp at this
    constructor
    · intro h1
      obtain ⟨q, pre, e1, e2⟩ := client_relay_read w argv sock p fd r hp hread
        (by intro h; omega)
      rw [if_pos h1, hdata] at e2
      exact ⟨q, pre, e1, e2, exit_code_char _ b hb⟩
    · intro h1 h2
      obtain ⟨q, pre, e1, e2⟩ := client_relay_read w argv sock p fd r hp hread h2
      rw [if_neg h1] at e2
      exact ⟨q, pre, e1, e2⟩

set_option maxRecDepth 100000 in
theorem exit_status_relay_witness :
    ∃ q pre, main sampleWorld clientArgv (start relayScript) = .halt q
      ∧ q.trace = pre ++ [.sys (.read 3 1) { ret := 1, eintr := false, data := [200] },
          .exit (char_to_int sampleWorld.char_signed 200)]
      ∧ exit_code (char_to_int sampleWorld.char_signed 200) = 200 :=
  (exit_status_relay sampleWorld clientArgv relayScript 3
    { ret := 1, eintr := false, data := [200] } 200 (by decide) (by decide) (by decide)).1
    (by decide)

theorem sys_ret_inv (c : Call) (p q : Proc) (r : SysRes) (h : sys c p = .ret r q) :
    q.trace = p.trace ++ [.sys c r] ∧ q.merlin_path = p.merlin_path
      ∧ q.socketname = p.socketname := by
  unfold Merlin.sys at h
  split at h
  · cases h
  · cases h; exact ⟨rfl, rfl, rfl⟩

theorem NO_EINTR_ret_inv (c : Call) (p q : Proc) (r : SysRes) (h : NO_EINTR c p = .ret r q) :
    ∃ pre, q.trace = p.trace ++ pre ++ [.sys c r] := by
  have hN : NO_EINTR c p = NO_EINTR_loop c p.script p := rfl
  rcases NO_EINTR_loop_cases c p.script p with
    ⟨retries, _, _, h3⟩ | ⟨retries, r', rest, _, _, _, h4⟩
  · rw [hN, h3] at h; cases h
  · rw [hN, h4] at h; cases h; exact ⟨_, rfl⟩

theorem connect_tail_ret (w : World) (fail : Bool) (fd : Int) (err : SysRes) (p5 q : Proc)
    (sock : Int) (hs : sock ≠ -1)
    (h : (if err.ret = -1 then
            if fail = true then
              (failwith_perror w "connect" : M PUnit) >>= fun _ =>
                sys (.close fd) >>= fun _ => (pure (-1) : M Int)
            else
              (pure PUnit.unit : M PUnit) >>= fun _ =>
                sys (.close fd) >>= fun _ => (pure (-1) : M Int)
          else (pure PUnit.unit : M PUnit) >>= fun _ => (pure fd : M Int)) p5
        = .ret sock q) :
    err.ret ≠ -1 ∧ sock = fd ∧ q = p5 := by
  by_cases he : err.ret = -1
  · exfalso
    simp only [he, if_true] at h
    cases fail with
    | true =>
      simp only [if_true, bind_apply, failwith_perror_apply] at h
      exact Run.noConfusion h
    | false =>
      simp only [Bool.false_eq_true, if_false, bind_apply, pure_apply] at h
      cases h6 : sys (.close fd) p5 with
      | halt _ => rw [h6] at h; exact Run.noConfusion h
      | blocked _ => rw [h6] at h; exact Run.noConfusion h
      | ret r6 p6 =>
        rw [h6] at h
        simp only [Run.ret.injEq] at h
        exact hs h.1.symm
  · simp only [he, if_false, bind_apply, pure_apply, Run.ret.injEq] at h
    exact ⟨he, h.1.symm, h.2.symm⟩

theorem connect_socket_ret (w : World) (socketname : List Nat) (fail : Bool) (p q : Proc)
    (sock : Int) (h : connect_socket w socketname fail p = .ret sock q) (hs : sock ≠ -1) :
    ∃ new, q.trace = p.trace ++ new ∧ Connected new sock := by
  unfold connect_socket at h
  dsimp only at h
  simp only [bind_apply] at h
  cases h1 : sys .socket p with
  | halt _ => rw [h1] at h; exact Run.noConfusion h
  | blocked _ => rw [h1] at h; exact Run.noConfusion h
  | ret r1 p1 =>
    rw [h1] at h
    simp only at h
    by_cases hr1 : r1.ret = -1
    · simp only [hr1, if_true, bind_apply, failwith_perror_apply] at h
      exact Run.noConfusion h
    · simp only [hr1, if_false, bind_apply, pure_apply] at h
      cases h2 : sys .getcwd p1 with
      | halt _ => rw [h2] at h; exact Run.noConfusion h
      | blocked _ => rw [h2] at h; exact Run.noConfusion h
      | ret cwd p2 =>
        rw [h2] at h
        simp only at h
        cases h3 : sys (.chdir (path_socketdir w)) p2 with
        | halt _ => rw [h3] at h; exact Run.noConfusion h
        | blocked _ => rw [h3] at h; exact Run.noConfusion h
        | ret r3 p3 =>
          rw [h3] at h
          simp only at h
          cases h4 : NO_EINTR (.connect r1.ret (snprintf 104 (cstr "./" ++ socketname))) p3 with
          | halt _ => rw [h4] at h; exact Run.noConfusion h
          | blocked _ => rw [h4] at h; exact Run.noConfusion h
          | ret err p4 =>
            rw [h4] at h
            simp only at h
            obtain ⟨t1, _, _⟩ := sys_ret_inv _ _ _ _ h1
            obtain ⟨t2, _, _⟩ := sys_ret_inv _ _ _ _ h2
            obtain ⟨t3, _, _⟩ := sys_ret_inv _ _ _ _ h3
            obtain ⟨pre, t4⟩ := NO_EINTR_ret_inv _ _ _ _ h4
            have hconn : ∀ extra, err.ret ≠ -1 →
                Connected ([Event.sys .socket r1, .sys .getcwd cwd,
                  .sys (.chdir (path_socketdir w)) r3] ++ pre
                  ++ [.sys (.connect r1.ret (snprintf 104 (cstr "./" ++ socketname))) err]
                  ++ extra) r1.ret := by
              intro extra he
              exact ⟨r1, err, snprintf 104 (cstr "./" ++ socketname), by simp, rfl, hr1,
                by simp, he⟩
            by_cases hcwd : (if cwd.ret = 0 then [] else cwd.data) ≠ []
            · simp only [hcwd, if_true, bind_apply, ne_eq, not_false_eq_true] at h
              cases h5 : sys (.chdir (if cwd.ret = 0 then [] else cwd.data)) p4 with
              | halt _ => rw [h5] at h; exact Run.noConfusion h
              | blocked _ => rw [h5] at h; exact Run.noConfusion h
              | ret r5 p5 =>
                rw [h5] at h
                simp only [pure_apply] at h
                obtain ⟨t5, _, _⟩ := sys_ret_inv _ _ _ _ h5
                obtain ⟨he, rfl, rfl⟩ := connect_tail_ret w fail r1.ret err p5 q sock hs h
                refine ⟨_, ?_, hconn
                  [.sys (.chdir (if cwd.ret = 0 then [] else cwd.data)) r5] he⟩
                rw [t5, t4, t3, t2, t1]
                simp
            · simp only [hcwd, if_false, bind_apply, pure_apply] at h
              obtain ⟨he, rfl, rfl⟩ := connect_tail_ret w fail r1.ret err p4 q sock hs h
              refine ⟨_, ?_, hconn [] he⟩
              rw [t4, t3, t2, t1]
              simp

theorem connected_mono {t t' : List Event} {sock : Int} (h : Connected t sock)
    (ht : ∀ e ∈ t, e ∈ t') : Connected t' sock := by
  obtain ⟨r1, r2, path, h1, h2, h3, h4, h5⟩ := h
  exact ⟨r1, r2, path, ht _ h1, h2, h3, ht _ h4, h5⟩

theorem connect_and_serve_ret (w : World) (socket_path exec_path : List Nat) (p q : Proc)
    (sock : Int) (h : connect_and_serve w socket_path exec_path p = .ret sock q) :
    ∃ new, q.trace = p.trace ++ new ∧ Connected new sock := by
  unfold connect_and_serve at h
  simp only [bind_apply] at h
  have hfin : ∀ (s : Int) (p3 : Proc),
      (if s = -1 then (abort : M PUnit) >>= fun _ => (pure s : M Int)
        else (pure PUnit.unit : M PUnit) >>= fun _ => (pure s : M Int)) p3
        = .ret sock q → s ≠ -1 ∧ sock = s ∧ q = p3 := by
    intro s p3 hf
    by_cases hs : s = -1
    · simp only [hs, if_true, bind_apply, abort] at hf
      exact Run.noConfusion hf
    · simp only [hs, if_false, bind_apply, pure_apply, Run.ret.injEq] at hf
      exact ⟨hs, hf.1.symm, hf.2.symm⟩
  cases c1 : connect_socket w socket_path false p with
  | halt _ => rw [c1] at h; exact Run.noConfusion h
  | blocked _ => rw [c1] at h; exact Run.noConfusion h
  | ret s1 p1 =>
    rw [c1] at h
    simp only at h
    by_cases hs1 : s1 = -1
    · simp only [hs1, if_true, bind_apply] at h
      obtain ⟨a, ha, _⟩ := (connect_socket_emits w socket_path false
        (K := [Kind.socketOp, Kind.cwdOp, Kind.stderrOp, Kind.exitOp]) (fun _ h => h)).out p
      rw [c1] at ha
      cases c2 : start_server w socket_path exec_path p1 with
      | halt _ => rw [c2] at h; exact Run.noConfusion h
      | blocked _ => rw [c2] at h; exact Run.noConfusion h
      | ret u p2 =>
        rw [c2] at h
        simp only at h
        obtain ⟨b, hb, _⟩ := (start_server_emits w socket_path exec_path
          (K := [Kind.spawnOp, Kind.socketOp, Kind.cwdOp, Kind.stderrOp, Kind.exitOp])
          (fun _ h => h)).out p1
        rw [c2] at hb
        cases c3 : connect_socket w socket_path true p2 with
        | halt _ => rw [c3] at h; exact Run.noConfusion h
        | blocked _ => rw [c3] at h; exact Run.noConfusion h
        | ret s2 p3 =>
          rw [c3] at h
          simp only at h
          obtain ⟨hs2, rfl, rfl⟩ := hfin s2 p3 h
          obtain ⟨new, hn, hc⟩ := connect_socket_ret w socket_path true p2 q sock c3 hs2
          refine ⟨a ++ b ++ new, ?_, connected_mono hc (fun e he => by simp [he])⟩
          simp only [Run.proc] at ha hb
          rw [hn, hb, ha]
          simp
    · simp only [hs1, if_false, bind_apply, pure_apply] at h
      obtain ⟨_, rfl, rfl⟩ := hfin s1 p1 (by simpa only [hs1, if_false] using h)
      exact connect_socket_ret w socket_path false p q sock c1 hs1

theorem compute_merlinpath_cases (w : World) (argv0 : Option (List Nat)) (p : Proc) :
    (∃ q, compute_merlinpath w argv0 p = .ret () q ∧ q.trace = p.trace ∧ q.script = p.script)
    ∨ (∃ q msg a b c, compute_merlinpath w argv0 p = .halt q
        ∧ q.trace = p.trace ++ [.eprintln msg, .dumpinfo a b c, .exit 1]
        ∧ (msg = "cannot resolve path to ocamlmerlin" ∨ msg = "path is too long")) := by
  unfold compute_merlinpath
  dsimp only
  split
  · right
    rw [failwith_apply]
    exact ⟨_, _, _, _, _, rfl, rfl, Or.inl rfl⟩
  · split
    · right
      rw [failwith_apply]
      exact ⟨_, _, _, _, _, rfl, rfl, Or.inr rfl⟩
    · left
      exact ⟨_, rfl, rfl, rfl⟩

theorem compute_socketname_ret (w : World) (p q : Proc)
    (h : compute_socketname w p = .ret () q) : q.trace = p.trace ∧ q.script = p.script := by
  unfold compute_socketname at h
  split at h
  · rw [failwith_perror_apply] at h; exact Run.noConfusion h
  · cases h; exact ⟨rfl, rfl⟩

theorem client_connect_ret (w : World) (argv : List (List Nat)) (p q : Proc) (sock : Int)
    (h : client_connect w argv p = .ret sock q) :
    ∃ new, q.trace = p.trace ++ new ∧ Connected new sock := by
  unfold client_connect at h
  simp only [bind_apply] at h
  rcases compute_merlinpath_cases w argv.head? p with
    ⟨q1, e1, t1, _⟩ | ⟨q1, _, _, _, _, e1, _, _⟩
  · rw [e1] at h
    simp only at h
    cases c2 : compute_socketname w q1 with
    | halt _ => rw [c2] at h; exact Run.noConfusion h
    | blocked _ => rw [c2] at h; exact Run.noConfusion h
    | ret u q2 =>
      rw [c2] at h
      simp only at h
      obtain ⟨t2, _⟩ := compute_socketname_ret w q1 q2 c2
      obtain ⟨new, hn, hc⟩ := connect_and_serve_ret w _ _ q2 q sock h
      exact ⟨new, by rw [hn, t2, t1], hc⟩
  · rw [e1] at h; exact Run.noConfusion h

theorem client_connect_eprintln (w : World) (argv : List (List Nat)) (script : List SysRes)
    (s : String)
    (h : Event.eprintln s ∈ (client_connect w argv (start script)).proc.trace) :
    s = "cannot resolve path to ocamlmerlin" ∨ s = "path is too long" := by
  unfold client_connect at h
  simp only [bind_apply] at h
  rcases compute_merlinpath_cases w argv.head? (start script) with
    ⟨q1, e1, t1, _⟩ | ⟨q1, msg, _, _, _, e1, t1, hmsg⟩
  · exfalso
    rw [e1] at h
    simp only at h
    have hE : Emits [Kind.spawnOp, Kind.socketOp, Kind.cwdOp, Kind.stderrOp, Kind.exitOp,
        Kind.abortOp]
        (compute_socketname w >>= fun _ =>
          (fun p => connect_and_serve w p.socketname p.merlin_path p)) :=
      emits_bind (compute_socketname_emits w (by intro k hk; simp at hk ⊢; tauto)) (fun _ =>
        emits_ofState (fun q => connect_and_serve_emits w q.socketname q.merlin_path
          (fun _ h => h)))
    obtain ⟨new, hn, hk⟩ := hE.out q1
    rw [bind_apply] at hn
    rw [hn, t1] at h
    have := hk _ (by simpa [start] using h)
    simp [Event.kind] at this
  · rw [e1] at h
    simp only [Run.proc, t1, start, List.nil_append, List.mem_cons, Event.eprintln.injEq,
      List.mem_singleton, List.not_mem_nil, or_false] at h
    rcases h with h | h | h
    · rw [h]; exact hmsg
    · cases h
    · cases h

theorem append_argument_error (buffer : List Nat) (len pos : Nat) (p : List Nat)
    (msg : String) (h : append_argument buffer len pos p = .error msg) :
    msg = "maximum number of arguments exceeded" := by
  unfold append_argument at h
  generalize append_loop len p buffer pos = r at h
  obtain ⟨b, j⟩ := r
  simp only at h
  by_cases hj : j ≥ len
  · simp only [hj, if_true, Except.error.injEq] at h
    exact h.symm
  · simp only [hj, if_false] at h
    cases h

theorem prepare_env_error (getenv : List Nat → Option (List Nat)) (len : Nat) (msg : String) :
    ∀ (names : List (List Nat)) (s : List Nat × Nat),
    prepare_env getenv len names s = .error msg →
    msg = "maximum number of arguments exceeded" := by
  intro names
  induction names with
  | nil => intro s h; cases h
  | cons name rest ih =>
    intro s h
    obtain ⟨buffer, j⟩ := s
    simp only [prepare_env, bind, Except.bind] at h
    cases h1 : append_argument buffer len j name with
    | error m => rw [h1] at h; cases h; exact append_argument_error _ _ _ _ _ h1
    | ok s1 =>
      rw [h1] at h
      simp only at h
      cases hg : getenv name with
      | none => rw [hg] at h; exact ih _ h
      | some v =>
        rw [hg] at h
        simp only at h
        cases h2 : append_argument s1.1 len (s1.2 - 1) (cstr "=") with
        | error m => rw [h2] at h; cases h; exact append_argument_error _ _ _ _ _ h2
        | ok s2 =>
          rw [h2] at h
          simp only at h
          cases h3 : append_argument s2.1 len (s2.2 - 1) v with
          | error m => rw [h3] at h; cases h; exact append_argument_error _ _ _ _ _ h3
          | ok s3 =>
            rw [h3] at h
            exact ih _ h

theorem prepare_argv_error (len : Nat) (msg : String) :
    ∀ (argv : List (List Nat)) (s : List Nat × Nat),
    prepare_argv len argv s = .error msg → msg = "maximum number of arguments exceeded" := by
  intro argv
  induction argv with
  | nil => intro s h; cases h
  | cons a rest ih =>
    intro s h
    obtain ⟨buffer, j⟩ := s
    simp only [prepare_argv, bind, Except.bind] at h
    split at h
    · cases h1 : append_argument buffer len j a with
      | error m => rw [h1] at h; cases h; exact append_argument_error _ _ _ _ _ h1
      | ok s1 => rw [h1] at h; exact ih _ h
    · cases h

theorem prepare_args_error (getenv : List Nat → Option (List Nat)) (buffer : List Nat)
    (len : Nat) (argv : List (List Nat)) (msg : String)
    (h : prepare_args getenv buffer len argv = .error msg) :
    msg = "maximum number of arguments exceeded" := by
  simp only [prepare_args, bind, Except.bind] at h
  cases h1 : prepare_env getenv len envvars (buffer, 4) with
  | error m => rw [h1] at h; cases h; exact prepare_env_error _ _ _ _ _ h1
  | ok s1 =>
    rw [h1] at h
    simp only at h
    cases h2 : append_argument s1.1 len s1.2 (cstr "") with
    | error m => rw [h2] at h; cases h; exact append_argument_error _ _ _ _ _ h2
    | ok s2 =>
      rw [h2] at h
      simp only at h
      cases h3 : prepare_argv len argv (s2.1, s2.2) with
      | error m => rw [h3] at h; cases h; exact prepare_argv_error _ _ _ _ h3
      | ok s3 => rw [h3] at h; cases h

theorem connect_socket_success (w : World) (socketname : List Nat) (fail : Bool) (p : Proc)
    (r1 cwd r3 r4 : SysRes) (back rest : List SysRes)
    (hs : p.script = r1 :: cwd :: r3 :: r4 :: back ++ rest)
    (h1 : r1.ret ≠ -1) (h4 : r4.ret ≠ -1)
    (hback : ((if cwd.ret = 0 then [] else cwd.data) = [] ∧ back = [])
      ∨ ((if cwd.ret = 0 then [] else cwd.data) ≠ [] ∧ ∃ r5, back = [r5])) :
    connect_socket w socketname fail p
      = .ret r1.ret
          { p with
            script := rest
            trace := p.trace ++
              [.sys .socket r1, .sys .getcwd cwd, .sys (.chdir (path_socketdir w)) r3,
               .sys (.connect r1.ret (snprintf 104 (cstr "./" ++ socketname))) r4]
              ++ back.map (Event.sys (.chdir (if cwd.ret = 0 then [] else cwd.data))) } := by
  unfold connect_socket
  dsimp only
  rcases hback with ⟨hp, rfl⟩ | ⟨hp, r5, rfl⟩
  · simp only [bind_apply, pure_apply, Merlin.sys, NO_EINTR, NO_EINTR_loop, hs, h1, h4, hp,
      if_false, false_and, ne_eq, not_true_eq_false, List.nil_append, List.map_nil,
      List.append_nil, List.append_assoc, List.cons_append]
  · simp only [bind_apply, pure_apply, Merlin.sys, NO_EINTR, NO_EINTR_loop, hs, h1, h4, hp,
      if_false, if_true, false_and, ne_eq, not_false_eq_true, List.nil_append, List.map_cons,
      List.map_nil, List.append_nil, List.append_assoc, List.cons_append]

theorem trace_bind_extends {α β : Type} {K : List Kind} (m : M α) (f : α → M β)
    (hf : ∀ a, Emits K (f a)) (p : Proc) :
    ∃ more, ((m >>= f) p).proc.trace = (m p).proc.trace ++ more := by
  rw [bind_apply]
  cases m p with
  | ret a q =>
    obtain ⟨new, hn, _⟩ := (hf a).out q
    exact ⟨new, hn⟩
  | halt q => exact ⟨[], (List.append_nil _).symm⟩
  | blocked q => exact ⟨[], (List.append_nil _).symm⟩

theorem startsWith_sys (c : Call) :
    StartsWith (fun e => e = .pending c ∨ ∃ r, e = .sys c r) (sys c) := by
  refine ⟨fun p => ?_⟩
  unfold Merlin.sys
  cases p.script with
  | nil => exact ⟨_, [], rfl, Or.inl rfl⟩
  | cons r rs => exact ⟨_, [], rfl, Or.inr ⟨r, rfl⟩⟩

theorem startsWith_bind {α β : Type} {P : Event → Prop} {K : List Kind} {m : M α}
    {f : α → M β} (hm : StartsWith P m) (hf : ∀ a, Emits K (f a)) :
    StartsWith P (m >>= f) := by
  refine ⟨fun p => ?_⟩
  obtain ⟨e, rest, h1, h2⟩ := hm.out p
  obtain ⟨more, h3⟩ := trace_bind_extends m f hf p
  exact ⟨e, rest ++ more, by rw [h3, h1]; simp, h2⟩

theorem connect_socket_starts (w : World) (socketname : List Nat) (fail : Bool) :
    StartsWith (fun e => e = .pending .socket ∨ ∃ r, e = .sys .socket r)
      (connect_socket w socketname fail) := by
  have h1 : Kind.socketOp ∈ [Kind.socketOp, Kind.cwdOp, Kind.stderrOp, Kind.exitOp] := by simp
  have h2 : Kind.cwdOp ∈ [Kind.socketOp, Kind.cwdOp, Kind.stderrOp, Kind.exitOp] := by simp
  have h3 : Kind.stderrOp ∈ [Kind.socketOp, Kind.cwdOp, Kind.stderrOp, Kind.exitOp] := by simp
  have h4 : Kind.exitOp ∈ [Kind.socketOp, Kind.cwdOp, Kind.stderrOp, Kind.exitOp] := by simp
  unfold connect_socket
  refine startsWith_bind (K := [Kind.socketOp, Kind.cwdOp, Kind.stderrOp, Kind.exitOp])
    (startsWith_sys .socket) (fun sock => ?_)
  repeat (first
    | exact emits_pure _ _
    | exact emits_sys _ h1
    | exact emits_sys _ h2
    | exact emits_NO_EINTR _ h1
    | exact emits_failwith_perror _ _ h3 h4
    | apply emits_bind
    | intro _
    | split
    | dsimp only)

theorem connect_and_serve_starts (w : World) (socket_path exec_path : List Nat) :
    StartsWith (fun e => e = .pending .socket ∨ ∃ r, e = .sys .socket r)
      (connect_and_serve w socket_path exec_path) := by
  have hK1 : [Kind.spawnOp, Kind.socketOp, Kind.cwdOp, Kind.stderrOp, Kind.exitOp]
      ⊆ [Kind.spawnOp, Kind.socketOp, Kind.cwdOp, Kind.stderrOp, Kind.exitOp, Kind.abortOp] :=
    fun k hk => by simp at hk ⊢; tauto
  have hK2 : [Kind.socketOp, Kind.cwdOp, Kind.stderrOp, Kind.exitOp]
      ⊆ [Kind.spawnOp, Kind.socketOp, Kind.cwdOp, Kind.stderrOp, Kind.exitOp, Kind.abortOp] :=
    fun k hk => by simp at hk ⊢; tauto
  have h5 : Kind.abortOp
      ∈ [Kind.spawnOp, Kind.socketOp, Kind.cwdOp, Kind.stderrOp, Kind.exitOp, Kind.abortOp] := by
    simp
  unfold connect_and_serve
  refine startsWith_bind (K := [Kind.spawnOp, Kind.socketOp, Kind.cwdOp, Kind.stderrOp,
    Kind.exitOp, Kind.abortOp]) (connect_socket_starts w socket_path false) (fun sock => ?_)
  repeat (first
    | exact emits_pure _ _
    | exact emits_abort h5
    | exact connect_socket_emits _ _ _ hK2
    | exact start_server_emits _ _ _ hK1
    | apply emits_bind
    | intro _
    | split
    | dsimp only)


theorem connect_and_serve_success (w : World) (socket_path exec_path : List Nat) (p : Proc)
    (r1 cwd r3 r4 : SysRes) (back rest : List SysRes)
    (hs : p.script = r1 :: cwd :: r3 :: r4 :: back ++ rest)
    (h1 : r1.ret ≠ -1) (h4 : r4.ret ≠ -1)
    (hback : ((if cwd.ret = 0 then [] else cwd.data) = [] ∧ back = [])
      ∨ ((if cwd.ret = 0 then [] else cwd.data) ≠ [] ∧ ∃ r5, back = [r5])) :
    connect_and_serve w socket_path exec_path p
      = .ret r1.ret
          { p with
            script := rest
            trace := p.trace ++
              [.sys .socket r1, .sys .getcwd cwd, .sys (.chdir (path_socketdir w)) r3,
               .sys (.connect r1.ret (snprintf 104 (cstr "./" ++ socket_path))) r4]
              ++ back.map (Event.sys (.chdir (if cwd.ret = 0 then [] else cwd.data))) } := by
  unfold connect_and_serve
  simp only [bind_apply,
    connect_socket_success w socket_path false p r1 cwd r3 r4 back rest hs h1 h4 hback,
    h1, if_false, pure_apply]

theorem startsWith_NO_EINTR (c : Call) :
    StartsWith (fun e => e = .pending c ∨ ∃ r, e = .sys c r) (NO_EINTR c) := by
  refine ⟨fun p => ?_⟩
  have hN : NO_EINTR c p = NO_EINTR_loop c p.script p := rfl
  rcases NO_EINTR_loop_cases c p.script p with
    ⟨retries, _, _, h3⟩ | ⟨retries, r, rest, _, _, _, h4⟩
  · rw [hN, h3]
    cases retries with
    | nil => exact ⟨_, [], by simp [Run.proc], Or.inl rfl⟩
    | cons x xs => exact ⟨.sys c x, _, by simp [Run.proc]; rfl, Or.inr ⟨x, rfl⟩⟩
  · rw [hN, h4]
    cases retries with
    | nil => exact ⟨_, [], by simp [Run.proc], Or.inr ⟨r, rfl⟩⟩
    | cons x xs => exact ⟨.sys c x, _, by simp [Run.proc]; rfl, Or.inr ⟨x, rfl⟩⟩

theorem ipc_send_starts (w : World) (fd : Int) (buffer : List Nat) (len : Nat)
    (fds : List Int) :
    StartsWith (fun e => e = .pending (.sendmsg fd (buffer.take len) fds)
        ∨ ∃ r, e = .sys (.sendmsg fd (buffer.take len) fds) r)
      (ipc_send w fd buffer len fds) := by
  have hK : [Kind.sendOp, Kind.stderrOp, Kind.exitOp] ⊆ [Kind.sendOp, Kind.stderrOp,
      Kind.exitOp] := fun _ h => h
  have h3 : Kind.stderrOp ∈ [Kind.sendOp, Kind.stderrOp, Kind.exitOp] := by simp
  have h4 : Kind.exitOp ∈ [Kind.sendOp, Kind.stderrOp, Kind.exitOp] := by simp
  have hiov : iov buffer 0 len = buffer.take len := by simp [iov]
  unfold ipc_send
  rw [hiov]
  refine startsWith_bind (K := [Kind.sendOp, Kind.stderrOp, Kind.exitOp])
    (startsWith_NO_EINTR _) (fun sent => ?_)
  repeat (first
    | exact emits_pure _ _
    | exact emits_failwith_perror _ _ h3 h4
    | exact emits_ofState (fun q => ipc_send_loop_emits w fd buffer len hK _ _)
    | apply emits_bind
    | intro _
    | split
    | dsimp only)

theorem main_request_after (w : World) (argv : List (List Nat)) (script : List SysRes)
    (hm : server_marker argv = true) (q1 q2 q : Proc) (sock : Int) (buffer : List Nat)
    (len : Nat)
    (e1 : compute_merlinpath w argv.head? (start script) = .ret () q1)
    (e2 : compute_socketname w q1 = .ret () q2)
    (hcs : connect_and_serve w q2.socketname q2.merlin_path q2 = .ret sock q)
    (hp : prepare_args w.getenv argbuffer 65536 (argv.drop 2) = .ok (buffer, len)) :
    ∃ e more, (main w argv (start script)).proc.trace = q.trace ++ e :: more
      ∧ (e = .pending (.sendmsg sock (buffer.take len) [0, 1, 2])
        ∨ ∃ r, e = .sys (.sendmsg sock (buffer.take len) [0, 1, 2]) r) := by
  have hcc : client_connect w argv (start script)
      = connect_and_serve w q2.socketname q2.merlin_path q2 := by
    simp only [client_connect, bind_apply, e1, e2]
  obtain ⟨e, more, hst, he⟩ := (startsWith_bind (K := [Kind.sendOp])
    (ipc_send_starts w sock buffer len [0, 1, 2])
    (fun _ => emits_pure [Kind.sendOp] sock)).out q
  have hreq : (client_request w argv (start script)).proc.trace = q.trace ++ e :: more := by
    have : client_request w argv (start script)
        = (ipc_send w sock buffer len [0, 1, 2] >>= fun _ => (pure sock : M Int)) q := by
      unfold client_request
      rw [bind_apply, hcc, hcs]
      simp only [hp]
    rw [this, hst]
  obtain ⟨m2, h2⟩ := trace_bind_extends (client_request w argv) (client_relay w argv)
    (fun sock => client_relay_emits w argv sock (K := [Kind.readOp, Kind.stdoutOp,
      Kind.failwithOp, Kind.stderrOp, Kind.exitOp]) (fun _ h => h)) (start script)
  refine ⟨e, more ++ m2, ?_, he⟩
  rw [main_client w argv hm, h2, hreq]
  simp

theorem client_paths_state (w : World) (argv : List (List Nat)) (script : List SysRes)
    (q1 q2 : Proc)
    (e1 : compute_merlinpath w argv.head? (start script) = .ret () q1)
    (e2 : compute_socketname w q1 = .ret () q2) :
    q2.trace = [] ∧ q2.script = script := by
  rcases compute_merlinpath_cases w argv.head? (start script) with
    ⟨q, c1, t1, s1⟩ | ⟨q, _, _, _, _, c1, _, _⟩
  · rw [e1] at c1
    cases c1
    obtain ⟨t2, s2⟩ := compute_socketname_ret w q1 q2 e2
    exact ⟨by rw [t2, t1]; rfl, by rw [s2, s1]; rfl⟩
  · rw [e1] at c1; exact Run.noConfusion c1

theorem main_request_trace (w : World) (argv : List (List Nat)) (script : List SysRes)
    (hm : server_marker argv = true) (q1 q2 : Proc) (buffer : List Nat) (len : Nat)
    (r1 cwd r3 r4 : SysRes) (back rest : List SysRes)
    (e1 : compute_merlinpath w argv.head? (start script) = .ret () q1)
    (e2 : compute_socketname w q1 = .ret () q2)
    (hp : prepare_args w.getenv argbuffer 65536 (argv.drop 2) = .ok (buffer, len))
    (hs : script = r1 :: cwd :: r3 :: r4 :: back ++ rest)
    (h1 : r1.ret ≠ -1) (h4 : r4.ret ≠ -1)
    (hback : ((if cwd.ret = 0 then [] else cwd.data) = [] ∧ back = [])
      ∨ ((if cwd.ret = 0 then [] else cwd.data) ≠ [] ∧ ∃ r5, back = [r5])) :
    ∃ e more, (main w argv (start script)).proc.trace
        = [.sys .socket r1, .sys .getcwd cwd, .sys (.chdir (path_socketdir w)) r3,
           .sys (.connect r1.ret (snprintf 104 (cstr "./" ++ q2.socketname))) r4]
          ++ back.map (Event.sys (.chdir (if cwd.ret = 0 then [] else cwd.data)))
          ++ e :: more
      ∧ (e = .pending (.sendmsg r1.ret (buffer.take len) [0, 1, 2])
        ∨ ∃ r, e = .sys (.sendmsg r1.ret (buffer.take len) [0, 1, 2]) r) := by
  obtain ⟨hq2t, hq2s⟩ := client_paths_state w argv script q1 q2 e1 e2
  have hcs := connect_and_serve_success w q2.socketname q2.merlin_path q2 r1 cwd r3 r4 back
    rest (hq2s.trans hs) h1 h4 hback
  obtain ⟨e, more, ht, he⟩ := main_request_after w argv script hm q1 q2 _ r1.ret buffer len
    e1 e2 hcs hp
  refine ⟨e, more, ?_, he⟩
  rw [ht, hq2t]
  simp

theorem main_overflow_after (w : World) (argv : List (List Nat)) (script : List SysRes)
    (msg : String) (hm : server_marker argv = true)
    (hov : prepare_args w.getenv argbuffer 65536 (argv.drop 2) = .error msg)
    (q1 q2 q : Proc) (sock : Int)
    (e1 : compute_merlinpath w argv.head? (start script) = .ret () q1)
    (e2 : compute_socketname w q1 = .ret () q2)
    (hcs : connect_and_serve w q2.socketname q2.merlin_path q2 = .ret sock q) :
    (main w argv (start script)).proc.trace
      = q.trace ++ [.eprintln msg, .dumpinfo q.merlin_path (path_socketdir w) q.socketname,
          .exit 1] := by
  have hcc : client_connect w argv (start script)
      = connect_and_serve w q2.socketname q2.merlin_path q2 := by
    simp only [client_connect, bind_apply, e1, e2]
  rw [main_overflow w argv msg hm hov, bind_apply, hcc, hcs]
  simp only [failwith_apply, Run.proc]

theorem main_overflow_trace (w : World) (argv : List (List Nat)) (script : List SysRes)
    (msg : String) (hm : server_marker argv = true)
    (hov : prepare_args w.getenv argbuffer 65536 (argv.drop 2) = .error msg)
    (q1 q2 : Proc) (r1 cwd r3 r4 : SysRes) (back rest : List SysRes)
    (e1 : compute_merlinpath w argv.head? (start script) = .ret () q1)
    (e2 : compute_socketname w q1 = .ret () q2)
    (hs : script = r1 :: cwd :: r3 :: r4 :: back ++ rest)
    (h1 : r1.ret ≠ -1) (h4 : r4.ret ≠ -1)
    (hback : ((if cwd.ret = 0 then [] else cwd.data) = [] ∧ back = [])
      ∨ ((if cwd.ret = 0 then [] else cwd.data) ≠ [] ∧ ∃ r5, back = [r5])) :
    (main w argv (start script)).proc.trace
      = [.sys .socket r1, .sys .getcwd cwd, .sys (.chdir (path_socketdir w)) r3,
         .sys (.connect r1.ret (snprintf 104 (cstr "./" ++ q2.socketname))) r4]
        ++ back.map (Event.sys (.chdir (if cwd.ret = 0 then [] else cwd.data)))
        ++ [.eprintln msg, .dumpinfo q2.merlin_path (path_socketdir w) q2.socketname,
            .exit 1] := by
  obtain ⟨hq2t, hq2s⟩ := client_paths_state w argv script q1 q2 e1 e2
  have hcs := connect_and_serve_success w q2.socketname q2.merlin_path q2 r1 cwd r3 r4 back
    rest (hq2s.trans hs) h1 h4 hback
  rw [main_overflow_after w argv script msg hm hov q1 q2 _ r1.ret e1 e2 hcs]
  simp only [hq2t, List.nil_append]

theorem oversizedArgument_nulFree : NulFree oversizedArgument := by
  intro c hc
  have := List.eq_of_mem_replicate hc
  omega

theorem oversizedArgument_length : oversizedArgument.length = 65496 :=
  List.length_replicate _ _

theorem prepare_args_overflow_single (getenv : List Nat → Option (List Nat))
    (buffer : List Nat) (len : Nat) (a : List Nat)
    (hv : ∀ name ∈ envvars, ∀ v, getenv name = some v → NulFree v) (ha : NulFree a)
    (hcap : len ≤ buffer.length) (hfit : 4 + envSize getenv envvars + 1 < len)
    (hover : len ≤ 4 + envSize getenv envvars + 1 + a.length) :
    prepare_args getenv buffer len [a] = .error "maximum number of arguments exceeded" := by
  obtain ⟨b1, e1, l1, _⟩ := prepare_env_spec getenv len envvars buffer 4
    envvars_nulFree hv (by omega) hcap
  obtain ⟨b2, e2, l2, _⟩ := append_argument_spec b1 len (4 + envSize getenv envvars) []
    (by intro c hc; simp at hc) (by simp; omega) (by omega)
  simp only [List.length_nil, Nat.add_zero] at e2
  have e3 := append_argument_overflow b2 len (4 + envSize getenv envvars + 1) a ha
    (by omega) hover
  have e4 : prepare_argv len [a] (b2, 4 + envSize getenv envvars + 1)
      = .error "maximum number of arguments exceeded" := by
    rw [prepare_argv, if_pos hfit]
    show (append_argument b2 len (4 + envSize getenv envvars + 1) a).bind _ = _
    rw [e3]
    rfl
  have hcs : cstr "" = [] := rfl
  unfold prepare_args
  show (prepare_env getenv len envvars (buffer, 4)).bind _ = _
  rw [e1]
  show (append_argument b1 len (4 + envSize getenv envvars) (cstr "")).bind _ = _
  rw [hcs, e2]
  show (prepare_argv len [a] (b2, 4 + envSize getenv envvars + 1)).bind _ = _
  rw [e4]
  rfl

theorem prepare_args_oversized :
    prepare_args (fun _ => none) argbuffer 65536 [oversizedArgument]
      = .error "maximum number of arguments exceeded" :=
  prepare_args_overflow_single (fun _ => none) argbuffer 65536 oversizedArgument
    (by intro _ _ v h; cases h) oversizedArgument_nulFree (by rw [argbuffer_length])
    (by rw [envSize_unset]; decide) (by rw [envSize_unset, oversizedArgument_length])

theorem main_client_trace (w : World) (argv : List (List Nat)) (script : List SysRes)
    (hm : server_marker argv = true) :
    ∃ more, (main w argv (start script)).proc.trace
      = (client_connect w argv (start script)).proc.trace ++ more := by
  have hK : ∀ k : Kind, k ∈ [Kind.failwithOp, Kind.spawnOp, Kind.socketOp, Kind.cwdOp,
      Kind.stderrOp, Kind.exitOp, Kind.abortOp, Kind.sendOp, Kind.readOp, Kind.stdoutOp,
      Kind.execvpOp] := by
    intro k; cases k <;> simp
  have hreq : ∀ sock : Int, Emits [Kind.failwithOp, Kind.spawnOp, Kind.socketOp, Kind.cwdOp,
      Kind.stderrOp, Kind.exitOp, Kind.abortOp, Kind.sendOp, Kind.readOp, Kind.stdoutOp,
      Kind.execvpOp]
      (match prepare_args w.getenv argbuffer 65536 (argv.drop 2) with
        | .error msg => (failwith w msg : M Int)
        | .ok (buffer, len) => ipc_send w sock buffer len [0, 1, 2] >>= fun _ => pure sock) := by
    intro sock
    split
    · exact emits_failwith w _ (hK _) (hK _) (hK _)
    · exact emits_bind (ipc_send_emits w _ _ _ _ (fun k _ => hK k)) (fun _ => emits_pure _ _)
  obtain ⟨m1, h1⟩ := trace_bind_extends (client_connect w argv) _ hreq (start script)
  obtain ⟨m2, h2⟩ := trace_bind_extends (client_request w argv) (client_relay w argv)
    (fun sock => client_relay_emits w argv sock (K := [Kind.failwithOp, Kind.spawnOp,
      Kind.socketOp, Kind.cwdOp, Kind.stderrOp, Kind.exitOp, Kind.abortOp, Kind.sendOp,
      Kind.readOp, Kind.stdoutOp, Kind.execvpOp]) (fun k _ => hK k)) (start script)
  refine ⟨m1 ++ m2, ?_⟩
  rw [main_client w argv hm, h2]
  have : client_request w argv
      = client_connect w argv >>= fun sock =>
          (match prepare_args w.getenv argbuffer 65536 (argv.drop 2) with
            | .error msg => (failwith w msg : M Int)
            | .ok (buffer, len) =>
              ipc_send w sock buffer len [0, 1, 2] >>= fun _ => pure sock) := rfl
  rw [this, h1, List.append_assoc]

/-- C5 (amended). Mode dispatch of main. When argv[1] is the marker "server" the process acts
as a client: no event of the run is an execvp; once the worker path is resolved and the worker
binary is found by stat, the first event of the run is the socket() call; whenever
connect_and_serve then returns a socket and the encoder accepts argv[2..], the next event is
the sendmsg on that socket whose payload is the encoding of argv[2..] and whose delegated
descriptors are 0, 1 and 2; in particular, when socket() and the first connect() succeed, the
run is socket, getcwd, chdir to the socket directory, connect to the socket name, the chdir
back (when getcwd gave a directory), and then that sendmsg. For every other argument vector
the process re-executes as the worker: every event is the execvp call or a failure report, so
there is no socket operation, no transmission and no read, and once the worker path is
resolved the first event is execvp of that path with argv[0] replaced by
"ocamlmerlin-server". -/
theorem main_dispatch (w : World) (argv : List (List Nat)) (script : List SysRes) :
    (server_marker argv = true →
      (∀ e ∈ (main w argv (start script)).proc.trace, e.kind ≠ Kind.execvpOp)
      ∧ (∀ q1 q2, compute_merlinpath w argv.head? (start script) = .ret () q1 →
          compute_socketname w q1 = .ret () q2 →
          ∃ e rest, (main w argv (start script)).proc.trace = e :: rest
            ∧ (e = .pending .socket ∨ ∃ r, e = .sys .socket r))
      ∧ (∀ q1 q2 sock q buffer len,
          compute_merlinpath w argv.head? (start script) = .ret () q1 →
          compute_socketname w q1 = .ret () q2 →
          connect_and_serve w q2.socketname q2.merlin_path q2 = .ret sock q →
          prepare_args w.getenv argbuffer 65536 (argv.drop 2) = .ok (buffer, len) →
          ∃ e more, (main w argv (start script)).proc.trace = q.trace ++ e :: more
            ∧ (e = .pending (.sendmsg sock (buffer.take len) [0, 1, 2])
              ∨ ∃ r, e = .sys (.sendmsg sock (buffer.take len) [0, 1, 2]) r))
      ∧ (∀ q1 q2 buffer len r1 cwd r3 r4 back rest,
          compute_merlinpath w argv.head? (start script) = .ret () q1 →
          compute_socketname w q1 = .ret () q2 →
          prepare_args w.getenv argbuffer 65536 (argv.drop 2) = .ok (buffer, len) →
          script = r1 :: cwd :: r3 :: r4 :: back ++ rest →
          r1.ret ≠ -1 → r4.ret ≠ -1 →
          (((if cwd.ret = 0 then [] else cwd.data) = [] ∧ back = [])
            ∨ ((if cwd.ret = 0 then [] else cwd.data) ≠ [] ∧ ∃ r5, back = [r5])) →
          ∃ e more, (main w argv (start script)).proc.trace
              = [.sys .socket r1, .sys .getcwd cwd, .sys (.chdir (path_socketdir w)) r3,
                 .sys (.connect r1.ret (snprintf 104 (cstr "./" ++ q2.socketname))) r4]
                ++ back.map (Event.sys (.chdir (if cwd.ret = 0 then [] else cwd.data)))
                ++ e :: more
            ∧ (e = .pending (.sendmsg r1.ret (buffer.take len) [0, 1, 2])
              ∨ ∃ r, e = .sys (.sendmsg r1.ret (buffer.take len) [0, 1, 2]) r)))
    ∧ (server_marker argv = false →
      (∀ e ∈ (main w argv (start script)).proc.trace,
          e.kind ∈ [Kind.execvpOp, Kind.failwithOp, Kind.stderrOp, Kind.exitOp])
      ∧ (∀ q1, compute_merlinpath w argv.head? (start script) = .ret () q1 →
          ∃ e rest, (main w argv (start script)).proc.trace = e :: rest
            ∧ (e = .pending (.execvp q1.merlin_path (argv.set 0 (cstr "ocamlmerlin-server")))
              ∨ ∃ r, e = .sys
                (.execvp q1.merlin_path (argv.set 0 (cstr "ocamlmerlin-server"))) r))) := by
  constructor
  · intro hm
    refine ⟨?_, ?_, ?_, ?_⟩
    · intro e he hk
      have := trace_of_emits (main_emits_client w argv hm) script e he
      rw [hk] at this
      simp at this
    · intro q1 q2 e1 e2
      obtain ⟨more, hmore⟩ := main_client_trace w argv script hm
      have hcc : client_connect w argv (start script)
          = connect_and_serve w q2.socketname q2.merlin_path q2 := by
        simp only [client_connect, bind_apply, e1, e2]
      obtain ⟨e, rest, h1, h2⟩ :=
        (connect_and_serve_starts w q2.socketname q2.merlin_path).out q2
      rcases compute_merlinpath_cases w argv.head? (start script) with
        ⟨q, c1, t1, _⟩ | ⟨q, _, _, _, _, c1, _, _⟩
      · rw [e1] at c1
        cases c1
        obtain ⟨t2, _⟩ := compute_socketname_ret w q1 q2 e2
        refine ⟨e, rest ++ more, ?_, h2⟩
        rw [hmore, hcc, h1, t2, t1]
        simp [start]
      · rw [e1] at c1; exact Run.noConfusion c1
    · intro q1 q2 sock q buffer len e1 e2 hcs hp
      exact main_request_after w argv script hm q1 q2 q sock buffer len e1 e2 hcs hp
    · intro q1 q2 buffer len r1 cwd r3 r4 back rest e1 e2 hp hs h1 h4 hback
      exact main_request_trace w argv script hm q1 q2 buffer len r1 cwd r3 r4 back rest
        e1 e2 hp hs h1 h4 hback
  · intro hm
    constructor
    · exact trace_of_emits (main_emits_exec w argv hm) script
    · intro q1 e1
      rcases compute_merlinpath_cases w argv.head? (start script) with
        ⟨q, c1, t1, _⟩ | ⟨q, _, _, _, _, c1, _, _⟩
      · rw [e1] at c1
        cases c1
        have ht : q1.trace = [] := by rw [t1]; rfl
        rw [main_exec w argv hm]
        simp only [bind_apply, e1, M.pure]
        obtain ⟨e, rest, h1, h2⟩ := (startsWith_bind (K := [Kind.stderrOp, Kind.exitOp])
          (m := exec (.execvp q1.merlin_path (argv.set 0 (cstr "ocamlmerlin-server"))))
          (f := fun _ => (failwith_perror w "execvp(ocamlmerlin-server)" : M Unit))
          (P := fun e => e = .pending
              (.execvp q1.merlin_path (argv.set 0 (cstr "ocamlmerlin-server")))
            ∨ ∃ r, e = .sys (.execvp q1.merlin_path (argv.set 0 (cstr "ocamlmerlin-server"))) r)
          ⟨fun p => by
            unfold exec Merlin.sys
            cases p.script with
            | nil => exact ⟨_, [], rfl, Or.inl rfl⟩
            | cons r rs =>
              simp only
              split
              · exact ⟨_, [], rfl, Or.inr ⟨r, rfl⟩⟩
              · exact ⟨_, [], rfl, Or.inr ⟨r, rfl⟩⟩⟩
          (fun _ => emits_failwith_perror w _ (by simp) (by simp))).out q1
        rw [bind_apply, ht] at h1
        exact ⟨e, rest, by simpa using h1, h2⟩
      · rw [e1] at c1; exact Run.noConfusion c1

set_option maxRecDepth 100000 in
/-- C5 as stated fails. With the marker "server" the process is a client: it connects, encodes
the forwarded argument and delegates the three descriptors, and calls no execvp. Without the
marker it is not a client: its only event is the execvp of the worker binary. -/
theorem main_dispatch_counterexample :
    server_marker clientArgv = true
    ∧ (main sampleWorld clientArgv (start relayScript)).proc.trace
      = [.sys .socket (okRes 3),
         .sys .getcwd cwdRes,
         .sys (.chdir (cstr "/tmp")) (okRes 0),
         .sys (.connect 3 (cstr "./ocamlmerlin_1000_2049_131.socket")) (okRes 0),
         .sys (.chdir (cstr "/home")) (okRes 0),
         .sys (.sendmsg 3 (wireLayout (fun _ => none) [cstr "--version"]) [0, 1, 2]) (okRes 50),
         .sys (.read 3 1) { ret := 1, eintr := false, data := [200] },
         .exit (-56)]
    ∧ server_marker plainArgv = false
    ∧ (main sampleWorld plainArgv (start [okRes 0])).proc.trace
      = [.sys (.execvp (cstr "/usr/bin/ocamlmerlin-server")
          [cstr "ocamlmerlin-server", cstr "--version"]) (okRes 0)] := by
  decide

set_option maxRecDepth 100000 in
theorem main_dispatch_witness :
    ((∀ e ∈ (main sampleWorld clientArgv (start relayScript)).proc.trace,
        e.kind ≠ Kind.execvpOp)
      ∧ (∃ e rest, (main sampleWorld clientArgv (start relayScript)).proc.trace = e :: rest
            ∧ (e = .pending .socket ∨ ∃ r, e = .sys .socket r))
      ∧ (∃ e more, (main sampleWorld clientArgv (start relayScript)).proc.trace
            = [.sys .socket (okRes 3), .sys .getcwd cwdRes, .sys (.chdir (cstr "/tmp")) (okRes 0),
               .sys (.connect 3 (cstr "./ocamlmerlin_1000_2049_131.socket")) (okRes 0),
               .sys (.chdir (cstr "/home")) (okRes 0)] ++ e :: more
          ∧ (e = .pending (.sendmsg 3 (wireLayout (fun _ => none) [cstr "--version"]) [0, 1, 2])
            ∨ ∃ r, e = .sys
              (.sendmsg 3 (wireLayout (fun _ => none) [cstr "--version"]) [0, 1, 2]) r)))
    ∧ ((∀ e ∈ (main sampleWorld plainArgv (start [okRes 0])).proc.trace,
          e.kind ∈ [Kind.execvpOp, Kind.failwithOp, Kind.stderrOp, Kind.exitOp])
      ∧ (∃ e rest, (main sampleWorld plainArgv (start [okRes 0])).proc.trace = e :: rest
            ∧ (e = .pending (.execvp (cstr "/usr/bin/ocamlmerlin-server")
                  [cstr "ocamlmerlin-server", cstr "--version"])
              ∨ ∃ r, e = .sys (.execvp (cstr "/usr/bin/ocamlmerlin-server")
                  [cstr "ocamlmerlin-server", cstr "--version"]) r))) := by
  obtain ⟨b, hb, -, ht⟩ := prepare_args_layout (fun _ => none) argbuffer 65536
    [cstr "--version"] (by intro _ _ v h; cases h) (by decide) (by decide)
    (by rw [argbuffer_length])
  have hc := (main_dispatch sampleWorld clientArgv relayScript).1 (by decide)
  have hx := (main_dispatch sampleWorld plainArgv [okRes 0]).2 (by decide)
  refine ⟨⟨hc.1, hc.2.1 resolvedClient namedClient rfl rfl, ?_⟩,
    hx.1, hx.2 { start [okRes 0] with merlin_path := cstr "/usr/bin/ocamlmerlin-server" } rfl⟩
  have h := hc.2.2.2 resolvedClient namedClient b (encodedSize (fun _ => none) [cstr "--version"])
    (okRes 3) cwdRes (okRes 0) (okRes 0) [okRes 0]
    [okRes 50, { ret := 1, eintr := false, data := [200] }]
    rfl rfl hb rfl (by decide) (by decide) (Or.inr ⟨by decide, okRes 0, rfl⟩)
  rw [ht] at h
  exact h

/-- C6 (amended). In every client run in which the encoder fails on the forwarded arguments
(prepare_args reaches failwith): the failure is "maximum number of arguments exceeded" and,
for NUL-free strings, the full encoding is longer than the 65536 bytes of the request buffer;
no byte is transmitted and nothing is read; when the failure is reported, the report ends the
run and a socket has been created and connected before it; whenever connect_and_serve returns,
the report (the message, the state dump and exit(1)) is all that follows; in particular, when
socket() and the first connect() succeed, the run is exactly socket, getcwd, chdir to the
socket directory, connect, the chdir back (when getcwd gave a directory), and then the report.
The overflow is raised after connect_and_serve, not before any socket is touched. -/
theorem overflow_after_connect (w : World) (argv : List (List Nat)) (script : List SysRes)
    (msg : String) (hm : server_marker argv = true)
    (hov : prepare_args w.getenv argbuffer 65536 (argv.drop 2) = .error msg) :
    msg = "maximum number of arguments exceeded"
    ∧ ((∀ name ∈ envvars, ∀ v, w.getenv name = some v → NulFree v) →
        (∀ a ∈ argv.drop 2, NulFree a) → 65536 < encodedSize w.getenv (argv.drop 2))
    ∧ (∀ e ∈ (main w argv (start script)).proc.trace,
        e.kind ≠ Kind.sendOp ∧ e.kind ≠ Kind.readOp)
    ∧ (Event.eprintln msg ∈ (main w argv (start script)).proc.trace →
        ∃ pre a b c sock, (main w argv (start script)).proc.trace
            = pre ++ [.eprintln msg, .dumpinfo a b c, .exit 1]
          ∧ Connected pre sock)
    ∧ (∀ q1 q2 sock q,
        compute_merlinpath w argv.head? (start script) = .ret () q1 →
        compute_socketname w q1 = .ret () q2 →
        connect_and_serve w q2.socketname q2.merlin_path q2 = .ret sock q →
        (main w argv (start script)).proc.trace
          = q.trace ++ [.eprintln msg,
              .dumpinfo q.merlin_path (path_socketdir w) q.socketname, .exit 1])
    ∧ (∀ q1 q2 r1 cwd r3 r4 back rest,
        compute_merlinpath w argv.head? (start script) = .ret () q1 →
        compute_socketname w q1 = .ret () q2 →
        script = r1 :: cwd :: r3 :: r4 :: back ++ rest →
        r1.ret ≠ -1 → r4.ret ≠ -1 →
        (((if cwd.ret = 0 then [] else cwd.data) = [] ∧ back = [])
          ∨ ((if cwd.ret = 0 then [] else cwd.data) ≠ [] ∧ ∃ r5, back = [r5])) →
        (main w argv (start script)).proc.trace
          = [.sys .socket r1, .sys .getcwd cwd, .sys (.chdir (path_socketdir w)) r3,
             .sys (.connect r1.ret (snprintf 104 (cstr "./" ++ q2.socketname))) r4]
            ++ back.map (Event.sys (.chdir (if cwd.ret = 0 then [] else cwd.data)))
            ++ [.eprintln msg, .dumpinfo q2.merlin_path (path_socketdir w) q2.socketname,
                .exit 1]) := by
  have hmsg := prepare_args_error _ _ _ _ _ hov
  refine ⟨hmsg, ?_, ?_, ?_, ?_, ?_⟩
  · intro hv ha
    by_contra hle
    obtain ⟨b, hb, -, -⟩ := prepare_args_layout w.getenv argbuffer 65536 (argv.drop 2) hv ha
      (by omega) (by rw [argbuffer_length])
    rw [hb] at hov
    cases hov
  · rw [main_overflow w argv msg hm hov]
    intro e he
    have hE : Emits [Kind.failwithOp, Kind.spawnOp, Kind.socketOp, Kind.cwdOp, Kind.stderrOp,
        Kind.exitOp, Kind.abortOp]
        (client_connect w argv >>= fun _ => (failwith w msg : M Unit)) :=
      emits_bind (client_connect_emits w argv (fun _ h => h))
        (fun _ => emits_failwith w msg (by simp) (by simp) (by simp))
    have := trace_of_emits hE script e he
    constructor
    · intro hk; rw [hk] at this; simp at this
    · intro hk; rw [hk] at this; simp at this
  · rw [main_overflow w argv msg hm hov]
    intro hin
    rw [bind_apply] at hin ⊢
    cases hc : client_connect w argv (start script) with
    | ret sock q =>
      obtain ⟨new, hn, hconn⟩ := client_connect_ret w argv (start script) q sock hc
      simp only [failwith_apply, Run.proc]
      exact ⟨q.trace, _, _, _, sock, rfl, by rw [hn]; simpa [start] using hconn⟩
    | halt q =>
      exfalso
      rw [hc] at hin
      have := client_connect_eprintln w argv script msg (by rw [hc]; exact hin)
      rw [hmsg] at this
      rcases this with h | h <;> exact absurd h (by decide)
    | blocked q =>
      exfalso
      rw [hc] at hin
      have := client_connect_eprintln w argv script msg (by rw [hc]; exact hin)
      rw [hmsg] at this
      rcases this with h | h <;> exact absurd h (by decide)
  · intro q1 q2 sock q e1 e2 hcs
    exact main_overflow_after w argv script msg hm hov q1 q2 q sock e1 e2 hcs
  · intro q1 q2 r1 cwd r3 r4 back rest e1 e2 hs h1 h4 hback
    exact main_overflow_trace w argv script msg hm hov q1 q2 r1 cwd r3 r4 back rest
      e1 e2 hs h1 h4 hback

theorem overflow_after_connect_witness :
    65536 < encodedSize sampleWorld.getenv (oversizedArgv.drop 2)
    ∧ (∀ e ∈ (main sampleWorld oversizedArgv (start connectScript)).proc.trace,
        e.kind ≠ Kind.sendOp ∧ e.kind ≠ Kind.readOp)
    ∧ (Event.eprintln "maximum number of arguments exceeded"
          ∈ (main sampleWorld oversizedArgv (start connectScript)).proc.trace →
        ∃ pre a b c sock, (main sampleWorld oversizedArgv (start connectScript)).proc.trace
            = pre ++ [.eprintln "maximum number of arguments exceeded", .dumpinfo a b c, .exit 1]
          ∧ Connected pre sock)
    ∧ (main sampleWorld oversizedArgv (start connectScript)).proc.trace
      = [.sys .socket (okRes 3),
         .sys .getcwd cwdRes,
         .sys (.chdir (cstr "/tmp")) (okRes 0),
         .sys (.connect 3 (cstr "./ocamlmerlin_1000_2049_131.socket")) (okRes 0)]
        ++ [.sys (.chdir (cstr "/home")) (okRes 0)]
        ++ [.eprintln "maximum number of arguments exceeded",
            .dumpinfo (cstr "/usr/bin/ocamlmerlin-server") (cstr "/tmp")
              (cstr "ocamlmerlin_1000_2049_131.socket"),
            .exit 1] := by
  have h := overflow_after_connect sampleWorld oversizedArgv connectScript
    "maximum number of arguments exceeded" (by decide) prepare_args_oversized
  refine ⟨h.2.1 (by intro _ _ v hv; cases hv) ?_, h.2.2.1, h.2.2.2.1, ?_⟩
  · intro a ha
    have : a = oversizedArgument := by simpa [oversizedArgv] using ha
    rw [this]
    exact oversizedArgument_nulFree
  · exact h.2.2.2.2.2 { start connectScript with merlin_path := cstr "/usr/bin/ocamlmerlin-server" }
      { start connectScript with
        merlin_path := cstr "/usr/bin/ocamlmerlin-server"
        socketname := cstr "ocamlmerlin_1000_2049_131.socket" }
      (okRes 3) cwdRes (okRes 0) (okRes 0) [okRes 0] [] rfl rfl rfl (by decide) (by decide)
      (Or.inr ⟨by decide, okRes 0, rfl⟩)

/-- C6 as stated fails. The single forwarded argument of 65496 bytes overflows the buffer, and
the run creates a socket and connects it before the overflow is reported. -/
theorem overflow_after_connect_counterexample :
    prepare_args sampleWorld.getenv argbuffer 65536 (oversizedArgv.drop 2)
      = .error "maximum number of arguments exceeded"
    ∧ (main sampleWorld oversizedArgv (start connectScript)).proc.trace
      = [.sys .socket (okRes 3),
         .sys .getcwd cwdRes,
         .sys (.chdir (cstr "/tmp")) (okRes 0),
         .sys (.connect 3 (cstr "./ocamlmerlin_1000_2049_131.socket")) (okRes 0),
         .sys (.chdir (cstr "/home")) (okRes 0),
         .eprintln "maximum number of arguments exceeded",
         .dumpinfo (cstr "/usr/bin/ocamlmerlin-server") (cstr "/tmp")
           (cstr "ocamlmerlin_1000_2049_131.socket"),
         .exit 1] := by
  refine ⟨prepare_args_oversized, ?_⟩
  rw [main_overflow sampleWorld oversizedArgv "maximum number of arguments exceeded"
    (by decide) prepare_args_oversized]
  decide

/-- The rounds given to the loop of ipc_send never run out: with more rounds than scripted
results the outcome does not depend on their number. -/
theorem ipc_send_loop_rounds (w : World) (fd : Int) (buffer : List Nat) (len : Nat) :
    ∀ (f1 f2 : Nat) (sent : Int) (p : Proc), p.script.length < f1 → p.script.length < f2 →
      ipc_send_loop w fd buffer len f1 sent p = ipc_send_loop w fd buffer len f2 sent p := by
  intro f1
  induction f1 with
  | zero => intro f2 sent p h; omega
  | succ k ih =>
    intro f2 sent p h1 h2
    cases f2 with
    | zero => omega
    | succ m =>
      rw [ipc_send_loop_succ, ipc_send_loop_succ]
      split
      · generalize Call.send fd (iov buffer sent.toNat (size_t_of (↑len - sent))) = c
        have hN : NO_EINTR c p = NO_EINTR_loop c p.script p := rfl
        rcases NO_EINTR_loop_cases c p.script p with
          ⟨retries, _, _, h3⟩ | ⟨retries, r, rest, _, _, h3, h4⟩
        · rw [hN, h3]
        · rw [hN, h4]
          simp only
          split
          · rfl
          · have hl : rest.length < p.script.length := by rw [h3]; simp; omega
            exact ih m (sent + r.ret) _ (by simp only; omega) (by simp only; omega)
      · rfl

theorem copy_dir_rest_length (PATH_MAX : Nat) : ∀ (PATH : List Nat) (i : Nat)
    (stores : List Store), (copy_dir PATH_MAX PATH i stores).1.length ≤ PATH.length := by
  intro PATH
  induction PATH with
  | nil => intro i stores; simp [copy_dir]
  | cons c rest ih =>
    intro i stores
    unfold copy_dir
    split
    · have := ih (i + 1) (stores ++ [⟨i, c⟩])
      simp only [List.length_cons]
      omega
    · simp

theorem seek_next_length (PATH : List Nat) : (seek_next PATH).length ≤ PATH.length := by
  unfold seek_next
  exact le_trans (List.Sublist.length_le (List.dropWhile_sublist _))
    (List.Sublist.length_le (List.dropWhile_sublist _))

theorem seek_next_cons_length (c : Nat) (rest : List Nat) :
    (seek_next (c :: rest)).length < (c :: rest).length := by
  unfold seek_next
  by_cases h : c = 58
  · subst h
    have h1 : (List.dropWhile (fun c => c != 58) (58 :: rest)) = 58 :: rest := by
      simp [List.dropWhile]
    rw [h1]
    have h2 : List.dropWhile (fun c => c == 58) (58 :: rest)
        = List.dropWhile (fun c => c == 58) rest := by
      simp [List.dropWhile]
    rw [h2]
    have := List.Sublist.length_le (List.dropWhile_sublist (fun c => c == 58) (l := rest))
    simp only [List.length_cons]
    omega
  · have h1 : (List.dropWhile (fun c => c != 58) (c :: rest))
        = List.dropWhile (fun c => c != 58) rest := by
      have hb : (c != 58) = true := by simpa using h
      simp only [List.dropWhile, hb]
    rw [h1]
    have a := List.Sublist.length_le (List.dropWhile_sublist (fun c => c == 58)
      (l := List.dropWhile (fun c => c != 58) rest))
    have b := List.Sublist.length_le (List.dropWhile_sublist (fun c => c != 58) (l := rest))
    simp only [List.length_cons]
    omega

theorem search_step_length (PATH_MAX : Nat) (c : Nat) (rest : List Nat) :
    (seek_next (copy_dir PATH_MAX (c :: rest) 0 []).1).length < (c :: rest).length := by
  unfold copy_dir
  split
  · have a := copy_dir_rest_length PATH_MAX rest (0 + 1) ([] ++ [⟨0, c⟩])
    have b := seek_next_length (copy_dir PATH_MAX rest (0 + 1) ([] ++ [⟨0, c⟩])).1
    simp only [List.length_cons]
    omega
  · exact seek_next_cons_length c rest

/-- The scan of search_in_path terminates: every round shortens PATH, so with more rounds than
bytes of PATH the outcome does not depend on their number. -/
theorem search_loop_rounds (PATH_MAX : Nat) (realpath : List Nat → Option (List Nat))
    (argv0 : List Nat) :
    ∀ (f1 f2 : Nat) (PATH : List Nat) (stores : List Store),
      PATH.length < f1 → PATH.length < f2 →
      search_loop PATH_MAX realpath argv0 f1 PATH stores
        = search_loop PATH_MAX realpath argv0 f2 PATH stores := by
  intro f1
  induction f1 with
  | zero => intro f2 PATH stores h; omega
  | succ k ih =>
    intro f2 PATH stores h1 h2
    cases f2 with
    | zero => omega
    | succ m =>
      cases PATH with
      | nil => simp [search_loop]
      | cons c rest =>
        have hlen := search_step_length PATH_MAX c rest
        simp only [search_loop]
        split
        · rfl
        · exact ih m _ _ (by omega) (by omega)

end Merlin
